import Mathlib

/-
Verification of the picoweb sudoku pipeline.

The embedding below models the Rust sources of the repository:
  - src/sudoku.rs   : Sudoku.parse, Sudoku.solve_fast (with the nested solve_rec)
  - src/utility.rs  : HTML_HEADER, HTML_FOOTER, error_html, html_table, generate_html
  - src/form_value.rs : FormValue (content_length / write_content), Sm2Guard

Rust strings are modelled as lists of characters; heapless fixed-capacity
strings are modelled by guarded appends that leave the string unchanged when
the byte capacity would be exceeded (heapless push_str semantics), and by
empty strings when a heapless format call overflows (unwrap_or_default).
A Rust panic (heapless Vec FromIterator overflow, out-of-bounds array index)
is modelled as the Option value none: a function returns none exactly when
the Rust code panics instead of returning.
-/
/-- Errors of src/sudoku.rs (enum SudokuError). -/
inductive SudokuError where
  | InvalidFormat
  | InvalidNumber
  | NotEnoughArguments
  | NoSolution
deriving DecidableEq

/-- Debug formatting of SudokuError (impl core::fmt::Debug in src/sudoku.rs). -/
def debugStr (e : SudokuError) : List Char :=
  match e with
  | .InvalidFormat => "Invalid format".data
  | .InvalidNumber => "Invalid number".data
  | .NotEnoughArguments => "Not enough arguments".data
  | .NoSolution => "No solution found".data

/-- Helper for splitSep: accumulates the current fragment (reversed). -/
def splitSepAux (sep : Char) : List Char → List Char → List (List Char)
  | [], acc => [acc.reverse]
  | c :: cs, acc =>
      if c = sep then acc.reverse :: splitSepAux sep cs []
      else splitSepAux sep cs (c :: acc)

/-- Rust str::split with a one-character separator: adjacent separators and
separators at either end produce empty fragments, and the empty string
yields one empty fragment. -/
def splitSep (sep : Char) (s : List Char) : List (List Char) :=
  splitSepAux sep s []

/-- Rust str::trim: removes whitespace from both ends. -/
def trimChars (s : List Char) : List Char :=
  ((s.dropWhile Char.isWhitespace).reverse.dropWhile Char.isWhitespace).reverse

/-- Numeric value of a decimal digit character. -/
def digitVal (c : Char) : Nat := c.toNat - 48

/-- Rust str::parse::<u8>: an optional leading plus sign followed by at least
one decimal digit, value at most 255; anything else is a parse error. -/
def parseU8 (s : List Char) : Option Nat :=
  let t := match s with
           | '+' :: rest => rest
           | _ => s
  if t ≠ [] ∧ t.all Char.isDigit then
    let v := t.foldl (fun a c => 10 * a + digitVal c) 0
    if v ≤ 255 then some v else none
  else none

/-- One token of a row-group (the closure inside Sudoku::parse): a trimmed
underscore is the empty cell 0, otherwise the token must parse as u8. -/
def parseToken (s : List Char) : Except SudokuError Nat :=
  if trimChars s = "_".data then .ok 0
  else
    match parseU8 (trimChars s) with
    | some v => .ok v
    | none => .error .InvalidNumber

/-- Collects the mapped tokens of one row-group into a heapless Vec of
capacity cap (Sudoku::parse collects into heapless::Vec<u8, 18>).
Returns none when a successful push would exceed the capacity, which is a
heapless FromIterator overflow: the Rust code panics there. -/
def collectTokens : List (List Char) → Nat → Option (Except SudokuError (List Nat))
  | [], _ => some (.ok [])
  | t :: rest, cap =>
      match parseToken t with
      | .error e => some (.error e)
      | .ok v =>
          match cap with
          | 0 => none
          | Nat.succ cap2 =>
              match collectTokens rest cap2 with
              | none => none
              | some (.error e) => some (.error e)
              | some (.ok vs) => some (.ok (v :: vs))

/-- A 9x9 sudoku grid (field grid of struct Sudoku), row major, 0 = empty. -/
abbrev Grid : Type := List (List Nat)

/-- Reads cell (r, c) of a grid. -/
def cell (g : Grid) (r c : Nat) : Nat := (g.getD r []).getD c 0

/-- Writes value v into cell (r, c) of a grid. -/
def setCell (g : Grid) (r c v : Nat) : Grid :=
  List.set g r ((g.getD r []).set c v)

/-- The grid of Sudoku::default(): all cells empty. -/
def defaultGrid : Grid := List.replicate 9 (List.replicate 9 0)

/-- Shape invariant of the Rust type [[u8; 9]; 9]: nine rows of nine cells. -/
def gridWF (g : Grid) : Prop :=
  g.length = 9 ∧ ∀ row ∈ g, row.length = 9

instance (g : Grid) : Decidable (gridWF g) := by
  unfold gridWF
  infer_instance

/-- The slice-to-array conversion numbers.as_slice().try_into() for [u8; 9]:
fails exactly when the length is not 9. -/
def tryInto9 (l : List Nat) : Except SudokuError (List Nat) :=
  if l.length = 9 then .ok l else .error .InvalidFormat

/-- Parses one row-group (the loop body of Sudoku::parse): split on commas,
map the tokens, collect into a Vec of capacity 18, then require exactly
nine numbers and convert to a fixed row. -/
def parseLine (line : List Char) : Option (Except SudokuError (List Nat)) :=
  match collectTokens (splitSep ',' line) 18 with
  | none => none
  | some (.error e) => some (.error e)
  | some (.ok numbers) =>
      if numbers.length ≠ 9 then some (.error .InvalidNumber)
      else
        match tryInto9 numbers with
        | .error e => some (.error e)
        | .ok row => some (.ok row)

/-- Writes the parsed rows into the grid one by one (the indexed loop of
Sudoku::parse mutating self.grid[i]); an error keeps the rows already
written, mirroring the early return on &mut self. -/
def parseLines (g : Grid) (i : Nat) : List (List Char) → Option (Grid × Except SudokuError Unit)
  | [] => some (g, .ok ())
  | line :: rest =>
      match parseLine line with
      | none => none
      | some (.error e) => some (g, .error e)
      | some (.ok row) => parseLines (List.set g i row) (i + 1) rest

/-- Sudoku::parse on a mutable grid: split the schema on spaces and collect
into heapless::Vec<&str, 9> (none = collect overflow, a Rust panic, when
there are more than nine row-groups), require exactly nine row-groups,
then parse them into the grid. -/
def parse (g : Grid) (schema : List Char) : Option (Grid × Except SudokuError Unit) :=
  let lines := splitSep ' ' schema
  if 9 < lines.length then none
  else if lines.length ≠ 9 then some (g, .error .NotEnoughArguments)
  else parseLines g 0 lines

/-- The three constraint tables of solve_fast: rows, cols and boxes, each a
9 by 10 table of booleans ([[bool; 10]; 9] in the Rust code). -/
structure Trackers where
  rows : List (List Bool)
  cols : List (List Bool)
  boxes : List (List Bool)

/-- Reads slot (u, d) of one constraint table. -/
def getT (t : List (List Bool)) (u d : Nat) : Bool := (t.getD u []).getD d false

/-- Writes slot (u, d) of one constraint table. -/
def setT (t : List (List Bool)) (u d : Nat) (b : Bool) : List (List Bool) :=
  List.set t u ((t.getD u []).set d b)

/-- A fresh all-false 9 by 10 constraint table. -/
def emptyTable : List (List Bool) := List.replicate 9 (List.replicate 10 false)

/-- Box index of cell (r, c): (row / 3) * 3 + (col / 3). -/
def boxOf (r c : Nat) : Nat := r / 3 * 3 + c / 3

/-- One step of the constraint-initialization loop of solve_fast, at the
row-major position k (row k / 9, column k mod 9): a non-zero cell marks
its value in its row, column and box tables. -/
def initStep (g : Grid) (t : Trackers) (k : Nat) : Trackers :=
  let r := k / 9
  let c := k % 9
  let num := cell g r c
  if num ≠ 0 then
    { rows := setT t.rows r num true
      cols := setT t.cols c num true
      boxes := setT t.boxes (boxOf r c) num true }
  else t

/-- The constraint-initialization loop of solve_fast over all 81 cells in
row-major order. -/
def initTrackers (g : Grid) : Trackers :=
  (List.range 81).foldl (initStep g) ⟨emptyTable, emptyTable, emptyTable⟩

/-- Solver state: the grid together with the three constraint tables, the
data mutated in place by solve_rec. -/
structure SState where
  grid : Grid
  tr : Trackers

/-- Scans row-major positions k, k+1, ..., k+n-1 for the first empty cell,
mirroring the nested row/column loops of solve_rec. -/
def findZeroFrom (g : Grid) : Nat → Nat → Option Nat
  | _, 0 => none
  | k, Nat.succ n => if cell g (k / 9) (k % 9) = 0 then some k else findZeroFrom g (k + 1) n

/-- Row-major position of the first empty cell of the grid, if any. -/
def firstZero (g : Grid) : Option Nat := findZeroFrom g 0 81

/-- Viability test of solve_rec for digit n at cell (r, c) in box b: the
row, column and box slots of n must all be clear. -/
def viable (t : Trackers) (r c b n : Nat) : Bool :=
  !getT t.rows r n && !getT t.cols c n && !getT t.boxes b n

/-- Places digit n at cell (r, c) in box b: mutates the grid and marks the
three tracker slots (the then-branch of solve_rec before recursing). -/
def place (s : SState) (r c b n : Nat) : SState :=
  { grid := setCell s.grid r c n
    tr := { rows := setT s.tr.rows r n true
            cols := setT s.tr.cols c n true
            boxes := setT s.tr.boxes b n true } }

/-- Removes digit n from cell (r, c) in box b: clears the cell back to 0 and
clears the three tracker slots (the backtracking undo of solve_rec). -/
def unplace (s : SState) (r c b n : Nat) : SState :=
  { grid := setCell s.grid r c 0
    tr := { rows := setT s.tr.rows r n false
            cols := setT s.tr.cols c n false
            boxes := setT s.tr.boxes b n false } }

/-- The digit loop of solve_rec at the first empty cell (r, c) in box b:
tries the digits of the list in order; a viable digit is placed, the
recursion recur is run, and on failure the placement is undone on the
state the recursion returned before trying the next digit.  The boolean
result is the return value of solve_rec, paired with the state the
mutable arguments hold when it returns. -/
def tryNums (recur : SState → Bool × SState) (r c b : Nat) :
    SState → List Nat → Bool × SState
  | s, [] => (false, s)
  | s, n :: rest =>
      if viable s.tr r c b n then
        match recur (place s r c b n) with
        | (true, s2) => (true, s2)
        | (false, s2) => tryNums recur r c b (unplace s2 r c b n) rest
      else tryNums recur r c b s rest

/-- The digits 1 to 9 tried in ascending order by solve_rec. -/
def digits : List Nat := [1, 2, 3, 4, 5, 6, 7, 8, 9]

/-- The nested function solve_rec of solve_fast, with explicit fuel bounding
the recursion depth.  Each nested call is made on a grid with one more
filled cell, so any fuel of at least the number of empty cells makes the
fuel bound unreachable and the definition agree with the unbounded Rust
recursion; solve_fast calls it with fuel 81. -/
def solveRecF : Nat → SState → Bool × SState
  | 0, s =>
      match firstZero s.grid with
      | none => (true, s)
      | some _ => (false, s)
  | Nat.succ fuel, s =>
      match firstZero s.grid with
      | none => (true, s)
      | some k => tryNums (solveRecF fuel) (k / 9) (k % 9) (boxOf (k / 9) (k % 9)) s digits

/-- Sudoku::solve_fast on a mutable grid.  Returns none when the Rust code
panics: the initialization loop indexes rows[row][num as usize] into a
10-slot array, so any cell value above 9 is an out-of-bounds index.
Otherwise returns the Result together with the final contents of
self.grid. -/
def solve_fast (g : Grid) : Option (Except SudokuError Unit × Grid) :=
  if ∀ k ∈ List.range 81, cell g (k / 9) (k % 9) ≤ 9 then
    match solveRecF 81 ⟨g, initTrackers g⟩ with
    | (true, s) => some (.ok (), s.grid)
    | (false, s) => some (.error .NoSolution, s.grid)
  else none

/-- Byte length of a string: heapless capacities count utf8 bytes. -/
def byteLen (s : List Char) : Nat := (s.map Char.utf8Size).sum

/-- The push_str of a heapless String of capacity cap: appends when the
bytes fit, otherwise returns an error that the call sites discard with
unwrap_or_default, leaving the string unchanged. -/
def tryPush (cap : Nat) (s t : List Char) : List Char :=
  if byteLen s + byteLen t ≤ cap then s ++ t else s

/-- The heapless format macro into a String of capacity cap: the formatted
text when it fits, otherwise the default empty string
(unwrap_or_default on the format result). -/
def fitOrEmpty (cap : Nat) (s : List Char) : List Char :=
  if byteLen s ≤ cap then s else []

/-- Decimal rendering of a u8 value (the Display format of cell in
html_table); total on Nat and faithful for values up to 255. -/
def u8ToChars (n : Nat) : List Char :=
  if n < 10 then [Nat.digitChar n]
  else if n < 100 then [Nat.digitChar (n / 10), Nat.digitChar (n % 10)]
  else [Nat.digitChar (n / 100), Nat.digitChar (n / 10 % 10), Nat.digitChar (n % 10)]

/-- HTML_HEADER of src/utility.rs. -/
def HTML_HEADER : List Char :=
  "<!DOCTYPE html><html><head><meta charset=\"utf-8\"><title>Sudoku Result</title></head><body>".data

/-- HTML_FOOTER of src/utility.rs. -/
def HTML_FOOTER : List Char := "</body></html>".data

/-- The h1 banner and table opening pushed by html_table. -/
def tableOpen : List Char := "<h1>Solved Sudoku</h1><table border=\"1\">".data

/-- The cell fragment of html_table: format into a String of capacity 24. -/
def tdCell (v : Nat) : List Char :=
  fitOrEmpty 24 ("<td>".data ++ u8ToChars v ++ "</td>".data)

/-- The row loop body of html_table: push the tr opening, one td per cell,
and the tr closing, all into the capacity-1024 result string. -/
def pushRow (acc : List Char) (row : List Nat) : List Char :=
  tryPush 1024
    (row.foldl (fun a v => tryPush 1024 a (tdCell v)) (tryPush 1024 acc "<tr>".data))
    "</tr>".data

/-- html_table of src/utility.rs: builds the success page in a heapless
String of capacity 1024. -/
def html_table (g : Grid) : List Char :=
  tryPush 1024
    (tryPush 1024
      (g.foldl pushRow (tryPush 1024 (tryPush 1024 [] HTML_HEADER) tableOpen))
      "</table>".data)
    HTML_FOOTER

/-- error_html of src/utility.rs: one format call into a String of capacity
1024 wrapping the message and the Debug text of the error. -/
def error_html (msg : List Char) (e : SudokuError) : List Char :=
  fitOrEmpty 1024
    (HTML_HEADER ++ "<h1>".data ++ msg ++ ": ".data ++ debugStr e ++ "</h1>".data ++ HTML_FOOTER)

/-- FormValue of src/form_value.rs: nine heapless row strings of capacity 20
and the RefCell message slot of capacity 1024. -/
structure FormValue where
  row1 : List Char
  row2 : List Char
  row3 : List Char
  row4 : List Char
  row5 : List Char
  row6 : List Char
  row7 : List Char
  row8 : List Char
  row9 : List Char
  message : List Char
deriving DecidableEq

/-- The schema built by generate_html: the nine rows joined by single spaces,
formatted into a heapless String of capacity 1024. -/
def formSchema (f : FormValue) : List Char :=
  fitOrEmpty 1024
    (f.row1 ++ [' '] ++ f.row2 ++ [' '] ++ f.row3 ++ [' '] ++ f.row4 ++ [' '] ++ f.row5 ++
      [' '] ++ f.row6 ++ [' '] ++ f.row7 ++ [' '] ++ f.row8 ++ [' '] ++ f.row9)

/-- The parse-solve-render pipeline of generate_html: parse the schema into a
fresh default Sudoku, solve it, and render the table or an error page.
Returns none when parse or solve_fast panics. -/
def processing (f : FormValue) : Option (List Char) :=
  match parse defaultGrid (formSchema f) with
  | none => none
  | some (g, .ok ()) =>
      match solve_fast g with
      | none => none
      | some (.ok (), g2) => some (html_table g2)
      | some (.error e, _) => some (error_html "Error solving schema".data e)
  | some (_, .error e) => some (error_html "Error parsing schema".data e)

/-- generate_html of src/utility.rs: runs the pipeline, clears the message
slot and stores the produced text in it (capacity 1024), and returns the
text. -/
def generate_html (f : FormValue) : Option (List Char × FormValue) :=
  match processing f with
  | none => none
  | some text => some (text, { f with message := tryPush 1024 [] text })

/-- content_length of the picoserve Content impl for FormValue (phase 1):
runs generate_html once and returns the byte length of the produced text
together with the updated FormValue. -/
def content_length (f : FormValue) : Option (Nat × FormValue) :=
  match generate_html f with
  | none => none
  | some (text, f2) => some (byteLen text, f2)

/-- write_content of the picoserve Content impl for FormValue (phase 2):
writes the bytes of the cached message slot to the sink and does not
touch the pipeline.  Returns the sink with the written bytes appended. -/
def write_content (f : FormValue) (sink : List Char) : List Char :=
  sink ++ f.message

/-- The PIO state machine 2 device together with the state of the mutex
protecting it (embassy_sync Mutex, acquired only through try_lock). -/
structure Sm2 where
  enabled : Bool
  locked : Bool
deriving DecidableEq

/-- Sm2Guard::new: try_lock on the shared mutex; on success enable the
device and return a guard (the mutex guard itself is dropped at the end
of the match arm, so the lock is released again); on contention return
no guard and leave the device alone. -/
def sm2GuardNew (d : Sm2) : Option Unit × Sm2 :=
  if d.locked then (none, d)
  else (some (), { d with enabled := true })

/-- Drop for Sm2Guard: try_lock again; on success disable the device; on
contention only log, leaving the device state unchanged. -/
def sm2GuardDrop (d : Sm2) : Sm2 :=
  if d.locked then d
  else { d with enabled := false }

/-- One guard scope as executed by content_length: create the guard, run the
wrapped render call (whose normal or abnormal termination is recorded in
the boolean and does not touch the device), then run the guard
destructor exactly when a guard was created - also on the abnormal path,
since Drop runs during unwinding. -/
def guardScope (d : Sm2) (renderAborts : Bool) : Sm2 :=
  match sm2GuardNew d with
  | (some (), d2) => sm2GuardDrop d2
  | (none, d2) => d2

/-! Lemmas about tracker tables. -/
/-- Shape invariant of one Rust table [[bool; 10]; 9]. -/
def tableWF (t : List (List Bool)) : Prop :=
  t.length = 9 ∧ ∀ row ∈ t, row.length = 10

/-! Solver state invariants and basic step lemmas. -/
/-- Shape invariant of the solver state. -/
def stateWF (s : SState) : Prop :=
  gridWF s.grid ∧ tableWF s.tr.rows ∧ tableWF s.tr.cols ∧ tableWF s.tr.boxes

/-! Counting the empty cells of a grid. -/
/-- Number of empty cells among the 81 positions in row-major order. -/
def zeros (g : Grid) : Nat :=
  (List.range 81).countP (fun k => cell g (k / 9) (k % 9) == 0)

/-! The semantic invariants of the solver. -/
/-- The sudoku constraint between two cell positions: if they are distinct
and share a row, column or box, they may not hold the same non-zero
value. -/
def consistentAt (g : Grid) (r c r2 c2 : Nat) : Prop :=
  ¬(r = r2 ∧ c = c2) → (r = r2 ∨ c = c2 ∨ boxOf r c = boxOf r2 c2) →
    cell g r c ≠ 0 → cell g r c ≠ cell g r2 c2

instance (g : Grid) (r c r2 c2 : Nat) : Decidable (consistentAt g r c r2 c2) := by
  unfold consistentAt
  infer_instance

/-- No two distinct cells of the same row, column or box hold the same
non-zero value. -/
def consistent (g : Grid) : Prop :=
  ∀ r < 9, ∀ c < 9, ∀ r2 < 9, ∀ c2 < 9, consistentAt g r c r2 c2

instance (g : Grid) : Decidable (consistent g) := by
  unfold consistent
  infer_instance

/-- Every cell holds a value of the u8 range that fits the 10-slot tracker
rows, 0 through 9. -/
def cellsLe9 (g : Grid) : Prop := ∀ r < 9, ∀ c < 9, cell g r c ≤ 9

instance (g : Grid) : Decidable (cellsLe9 g) := by
  unfold cellsLe9
  infer_instance

/-- No cell is empty. -/
def full (g : Grid) : Prop := ∀ r < 9, ∀ c < 9, cell g r c ≠ 0

instance (g : Grid) : Decidable (full g) := by
  unfold full
  infer_instance

/-- The rows table holds exactly the values present in each grid row. -/
def rowsExact (g : Grid) (t : List (List Bool)) : Prop :=
  ∀ u < 9, ∀ d : Nat, (getT t u d = true ↔ d ≠ 0 ∧ ∃ c2 < 9, cell g u c2 = d)

/-- The cols table holds exactly the values present in each grid column. -/
def colsExact (g : Grid) (t : List (List Bool)) : Prop :=
  ∀ u < 9, ∀ d : Nat, (getT t u d = true ↔ d ≠ 0 ∧ ∃ r2 < 9, cell g r2 u = d)

/-- The boxes table holds exactly the values present in each grid box. -/
def boxesExact (g : Grid) (t : List (List Bool)) : Prop :=
  ∀ u < 9, ∀ d : Nat,
    (getT t u d = true ↔ d ≠ 0 ∧ ∃ r2 < 9, ∃ c2 < 9, boxOf r2 c2 = u ∧ cell g r2 c2 = d)

/-- The full solver invariant: well-shaped state, u8-ranged consistent grid,
and the three tracker tables exactly mirroring the grid contents. -/
def solverInv (s : SState) : Prop :=
  stateWF s ∧ cellsLe9 s.grid ∧ consistent s.grid ∧
    rowsExact s.grid s.tr.rows ∧ colsExact s.grid s.tr.cols ∧ boxesExact s.grid s.tr.boxes

/-! Exactness of the constraint-initialization loop. -/
/-- The tracker state after the initialization loop has processed the first
m row-major positions. -/
def initPart (g : Grid) (m : Nat) : Trackers :=
  (List.range m).foldl (initStep g) ⟨emptyTable, emptyTable, emptyTable⟩

/-! Row-major value lists and lexicographic comparison of grids. -/
/-- The cell values at row-major positions k, ..., k+n-1. -/
def rmAux (g : Grid) : Nat → Nat → List Nat
  | _, 0 => []
  | k, Nat.succ n => cell g (k / 9) (k % 9) :: rmAux g (k + 1) n

/-- All 81 cell values of a grid in row-major order. -/
def rmList (g : Grid) : List Nat := rmAux g 0 81

/-! Completions of a partial grid. -/
/-- A valid completed sudoku grid extending the non-empty cells of g. -/
def Completion (g h : Grid) : Prop :=
  gridWF h ∧ (∀ r < 9, ∀ c < 9, 1 ≤ cell h r c ∧ cell h r c ≤ 9) ∧ consistent h ∧
    (∀ r < 9, ∀ c < 9, cell g r c ≠ 0 → cell h r c = cell g r c)

instance (g h : Grid) : Decidable (Completion g h) := by
  unfold Completion
  infer_instance

/-! Glue lemmas connecting solve_fast to the search lemmas. -/
/-- The values of row r of a grid. -/
def rowList (g : Grid) (r : Nat) : List Nat := (List.range 9).map (fun c => cell g r c)

/-- The values of column c of a grid. -/
def colList (g : Grid) (c : Nat) : List Nat := (List.range 9).map (fun r => cell g r c)

/-- The values of box b of a grid. -/
def boxList (g : Grid) (b : Nat) : List Nat :=
  (List.range 9).map (fun i => cell g (b / 3 * 3 + i / 3) (b % 3 * 3 + i % 3))

/-! Concrete grids used to instantiate and refute the claims. -/
/-- The unique solution of the example puzzle of the specification. -/
def solvedGrid : Grid :=
  [[5, 3, 4, 6, 7, 8, 9, 1, 2],
   [6, 7, 2, 1, 9, 5, 3, 4, 8],
   [1, 9, 8, 3, 4, 2, 5, 6, 7],
   [8, 5, 9, 7, 6, 1, 4, 2, 3],
   [4, 2, 6, 8, 5, 3, 7, 9, 1],
   [7, 1, 3, 9, 2, 4, 8, 5, 6],
   [9, 6, 1, 5, 3, 7, 2, 8, 4],
   [2, 8, 7, 4, 1, 9, 6, 3, 5],
   [3, 4, 5, 2, 8, 6, 1, 7, 9]]

/-- solvedGrid with cell (0, 0) emptied; a solvable consistent puzzle. -/
def oneHole : Grid :=
  [[0, 3, 4, 6, 7, 8, 9, 1, 2],
   [6, 7, 2, 1, 9, 5, 3, 4, 8],
   [1, 9, 8, 3, 4, 2, 5, 6, 7],
   [8, 5, 9, 7, 6, 1, 4, 2, 3],
   [4, 2, 6, 8, 5, 3, 7, 9, 1],
   [7, 1, 3, 9, 2, 4, 8, 5, 6],
   [9, 6, 1, 5, 3, 7, 2, 8, 4],
   [2, 8, 7, 4, 1, 9, 6, 3, 5],
   [3, 4, 5, 2, 8, 6, 1, 7, 9]]

/-- solvedGrid with cell (8, 8) emptied; a solvable consistent puzzle. -/
def oneHoleLast : Grid :=
  [[5, 3, 4, 6, 7, 8, 9, 1, 2],
   [6, 7, 2, 1, 9, 5, 3, 4, 8],
   [1, 9, 8, 3, 4, 2, 5, 6, 7],
   [8, 5, 9, 7, 6, 1, 4, 2, 3],
   [4, 2, 6, 8, 5, 3, 7, 9, 1],
   [7, 1, 3, 9, 2, 4, 8, 5, 6],
   [9, 6, 1, 5, 3, 7, 2, 8, 4],
   [2, 8, 7, 4, 1, 9, 6, 3, 5],
   [3, 4, 5, 2, 8, 6, 1, 7, 0]]

/-- A structurally valid consistent grid with no valid completion: row 0
holds the digits 1 through 8, and the 9 placed at cell (2, 8) blocks the
only remaining digit for cell (0, 8) through their shared box. -/
def blockedGrid : Grid :=
  [[1, 2, 3, 4, 5, 6, 7, 8, 0],
   [0, 0, 0, 0, 0, 0, 0, 0, 0],
   [0, 0, 0, 0, 0, 0, 0, 0, 9],
   [0, 0, 0, 0, 0, 0, 0, 0, 0],
   [0, 0, 0, 0, 0, 0, 0, 0, 0],
   [0, 0, 0, 0, 0, 0, 0, 0, 0],
   [0, 0, 0, 0, 0, 0, 0, 0, 0],
   [0, 0, 0, 0, 0, 0, 0, 0, 0],
   [0, 0, 0, 0, 0, 0, 0, 0, 0]]

/-- The completely filled grid holding 1 in every cell: structurally valid,
massively rule-violating, and free of empty cells. -/
def allOnesGrid : Grid := List.replicate 9 (List.replicate 9 1)

/-- solvedGrid with cell (0, 0) changed from 5 to 3, duplicating the 3 at
cell (0, 1) in row 0: a full, rule-violating grid. -/
def dupFullGrid : Grid :=
  [[3, 3, 4, 6, 7, 8, 9, 1, 2],
   [6, 7, 2, 1, 9, 5, 3, 4, 8],
   [1, 9, 8, 3, 4, 2, 5, 6, 7],
   [8, 5, 9, 7, 6, 1, 4, 2, 3],
   [4, 2, 6, 8, 5, 3, 7, 9, 1],
   [7, 1, 3, 9, 2, 4, 8, 5, 6],
   [9, 6, 1, 5, 3, 7, 2, 8, 4],
   [2, 8, 7, 4, 1, 9, 6, 3, 5],
   [3, 4, 5, 2, 8, 6, 1, 7, 9]]

instance : DecidableEq (Except SudokuError Unit) := fun x y =>
  match x, y with
  | .ok (), .ok () => isTrue rfl
  | .ok (), .error _ => isFalse (fun h => by cases h)
  | .error _, .ok () => isFalse (fun h => by cases h)
  | .error e1, .error e2 =>
      if h : e1 = e2 then isTrue (by rw [h]) else isFalse (fun hh => h (by cases hh; rfl))

/-- An input with three row-groups, used to instantiate claim_C10. -/
def threeGroupsInput : List Char := "a a a".data

/-- The example schema holding the out-of-range token 10 in its first cell. -/
def schemaWithTen : List Char :=
  ("10,2,3,4,5,6,7,8,9 1,2,3,4,5,6,7,8,9 1,2,3,4,5,6,7,8,9 1,2,3,4,5,6,7,8,9 " ++
   "1,2,3,4,5,6,7,8,9 1,2,3,4,5,6,7,8,9 1,2,3,4,5,6,7,8,9 1,2,3,4,5,6,7,8,9 " ++
   "1,2,3,4,5,6,7,8,9").data

/-- The grid that parse produces from schemaWithTen. -/
def gridWithTen : Grid :=
  [[10, 2, 3, 4, 5, 6, 7, 8, 9],
   [1, 2, 3, 4, 5, 6, 7, 8, 9],
   [1, 2, 3, 4, 5, 6, 7, 8, 9],
   [1, 2, 3, 4, 5, 6, 7, 8, 9],
   [1, 2, 3, 4, 5, 6, 7, 8, 9],
   [1, 2, 3, 4, 5, 6, 7, 8, 9],
   [1, 2, 3, 4, 5, 6, 7, 8, 9],
   [1, 2, 3, 4, 5, 6, 7, 8, 9],
   [1, 2, 3, 4, 5, 6, 7, 8, 9]]

/-- An input with ten space-separated row-groups. -/
def tenGroupsInput : List Char := "x x x x x x x x x x".data

/-- An input with eight space-separated row-groups. -/
def eightGroupsInput : List Char := "x x x x x x x x".data

/-! Renderer lemmas: the exact shape of the html_table output. -/
/-- The untruncated cell fragment of a grid cell. -/
def tdFull (v : Nat) : List Char := "<td>".data ++ u8ToChars v ++ "</td>".data

/-- The untruncated table-row fragment of a grid row. -/
def trFull (row : List Nat) : List Char :=
  "<tr>".data ++ (row.map tdFull).flatten ++ "</tr>".data

/-- The untruncated concatenation of all table rows of a grid. -/
def tableBody (g : Grid) : List Char := (g.map trFull).flatten

/-- A concrete submission whose rows are all the single letter x. -/
def wform : FormValue :=
  ⟨"x".data, "x".data, "x".data, "x".data, "x".data, "x".data, "x".data, "x".data,
    "x".data, []⟩

/-- The submission wform after phase 1 has filled its cached message slot
with the rendered parse-error page. -/
def wformAfter : FormValue :=
  ⟨"x".data, "x".data, "x".data, "x".data, "x".data, "x".data, "x".data, "x".data,
    "x".data,
    ("<!DOCTYPE html><html><head><meta charset=\"utf-8\"><title>Sudoku Result</title>" ++
     "</head><body><h1>Error parsing schema: Invalid number</h1></body></html>").data⟩

/-! Basic lemmas about getD and set on lists. -/
theorem getD_set_eq {α : Type} : ∀ (l : List α) (i : Nat) (v d : α),
    i < l.length → (l.set i v).getD i d = v
  | _ :: _, 0, _, _, _ => rfl
  | _ :: l, i + 1, v, d, h => getD_set_eq l i v d (Nat.lt_of_succ_lt_succ h)

theorem getD_set_ne {α : Type} : ∀ (l : List α) (i j : Nat) (v d : α),
    i ≠ j → (l.set i v).getD j d = l.getD j d
  | [], _, _, _, _, _ => rfl
  | _ :: _, 0, 0, _, _, h => absurd rfl h
  | _ :: _, 0, _ + 1, _, _, _ => rfl
  | _ :: _, _ + 1, 0, _, _, _ => rfl
  | _ :: l, i + 1, j + 1, v, d, h =>
      getD_set_ne l i j v d (fun e => h (congrArg Nat.succ e))

theorem set_getD_self {α : Type} : ∀ (l : List α) (i : Nat) (d : α),
    l.set i (l.getD i d) = l
  | [], _, _ => rfl
  | _ :: _, 0, _ => rfl
  | a :: l, i + 1, d => congrArg (a :: ·) (set_getD_self l i d)

/-! Lemmas about grid cells. -/
theorem rowLen {g : Grid} (hw : gridWF g) {r : Nat} (hr : r < 9) :
    (g.getD r []).length = 9 := by
  have hlt : r < g.length := by rw [hw.1]; exact hr
  have : g.getD r [] ∈ g := by
    rw [List.getD_eq_getElem?_getD, List.getElem?_eq_getElem hlt]
    exact List.getElem_mem hlt
  exact hw.2 _ this

theorem cell_setCell_eq {g : Grid} (hw : gridWF g) {r c : Nat} (hr : r < 9) (hc : c < 9)
    (v : Nat) : cell (setCell g r c v) r c = v := by
  unfold cell setCell
  rw [getD_set_eq _ _ _ _ (by rw [hw.1]; exact hr)]
  exact getD_set_eq _ _ _ _ (by rw [rowLen hw hr]; exact hc)

theorem cell_setCell_ne (g : Grid) {r c r2 c2 : Nat} (v : Nat)
    (h : ¬(r2 = r ∧ c2 = c)) : cell (setCell g r c v) r2 c2 = cell g r2 c2 := by
  by_cases hlen : r < g.length
  · unfold cell setCell
    by_cases hr : r = r2
    · subst hr
      have hc : c ≠ c2 := fun e => h ⟨rfl, e.symm⟩
      rw [getD_set_eq _ _ _ _ hlen]
      exact getD_set_ne _ _ _ _ _ hc
    · rw [getD_set_ne _ _ _ _ _ hr]
  · unfold setCell
    rw [List.set_eq_of_length_le (Nat.le_of_not_lt hlen)]

theorem setCell_setCell {g : Grid} (hw : gridWF g) {r c : Nat} (hr : r < 9) (hc : c < 9)
    (v w : Nat) : setCell (setCell g r c v) r c w = setCell g r c w := by
  unfold setCell
  rw [getD_set_eq _ _ _ _ (by rw [hw.1]; exact hr), List.set_set, List.set_set]

theorem setCell_cell_self {g : Grid} {r c v : Nat} (h : cell g r c = v) :
    setCell g r c v = g := by
  unfold setCell
  rw [← h]
  unfold cell
  rw [set_getD_self, set_getD_self]

theorem gridWF_setCell {g : Grid} (hw : gridWF g) (r c v : Nat) :
    gridWF (setCell g r c v) := by
  by_cases hl : r < 9
  · constructor
    · unfold setCell; rw [List.length_set]; exact hw.1
    · intro row hrow
      unfold setCell at hrow
      rcases List.mem_or_eq_of_mem_set hrow with h | h
      · exact hw.2 _ h
      · subst h
        rw [List.length_set]
        exact rowLen hw hl
  · unfold setCell
    rw [List.set_eq_of_length_le (by rw [hw.1]; exact Nat.le_of_not_lt hl)]
    exact hw

theorem tableWF_empty : tableWF emptyTable := by
  constructor
  · rfl
  · intro row hrow
    rw [List.eq_of_mem_replicate hrow]
    rfl

theorem tableRowLen {t : List (List Bool)} (hw : tableWF t) {u : Nat} (hu : u < 9) :
    (t.getD u []).length = 10 := by
  have hlt : u < t.length := by rw [hw.1]; exact hu
  have : t.getD u [] ∈ t := by
    rw [List.getD_eq_getElem?_getD, List.getElem?_eq_getElem hlt]
    exact List.getElem_mem hlt
  exact hw.2 _ this

theorem getT_setT_eq {t : List (List Bool)} (hw : tableWF t) {u d : Nat} (hu : u < 9)
    (hd : d < 10) (b : Bool) : getT (setT t u d b) u d = b := by
  unfold getT setT
  rw [getD_set_eq _ _ _ _ (by rw [hw.1]; exact hu)]
  exact getD_set_eq _ _ _ _ (by rw [tableRowLen hw hu]; exact hd)

theorem getT_setT_ne (t : List (List Bool)) {u d u2 d2 : Nat} (b : Bool)
    (h : ¬(u2 = u ∧ d2 = d)) : getT (setT t u d b) u2 d2 = getT t u2 d2 := by
  by_cases hlen : u < t.length
  · unfold getT setT
    by_cases hu : u = u2
    · subst hu
      have hd : d ≠ d2 := fun e => h ⟨rfl, e.symm⟩
      rw [getD_set_eq _ _ _ _ hlen]
      exact getD_set_ne _ _ _ _ _ hd
    · rw [getD_set_ne _ _ _ _ _ hu]
  · unfold setT
    rw [List.set_eq_of_length_le (Nat.le_of_not_lt hlen)]

theorem setT_setT {t : List (List Bool)} (hw : tableWF t) {u : Nat} (hu : u < 9)
    (d : Nat) (a b : Bool) : setT (setT t u d a) u d b = setT t u d b := by
  unfold setT
  rw [getD_set_eq _ _ _ _ (by rw [hw.1]; exact hu), List.set_set, List.set_set]

theorem setT_getT_self {t : List (List Bool)} {u d : Nat} {b : Bool}
    (h : getT t u d = b) : setT t u d b = t := by
  unfold setT
  rw [← h]
  unfold getT
  rw [set_getD_self, set_getD_self]

theorem tableWF_setT {t : List (List Bool)} (hw : tableWF t) (u d : Nat) (b : Bool) :
    tableWF (setT t u d b) := by
  by_cases hl : u < 9
  · constructor
    · unfold setT; rw [List.length_set]; exact hw.1
    · intro row hrow
      unfold setT at hrow
      rcases List.mem_or_eq_of_mem_set hrow with h | h
      · exact hw.2 _ h
      · subst h
        rw [List.length_set]
        exact tableRowLen hw hl
  · unfold setT
    rw [List.set_eq_of_length_le (by rw [hw.1]; exact Nat.le_of_not_lt hl)]
    exact hw

theorem boxOf_lt {r c : Nat} (hr : r < 9) (hc : c < 9) : boxOf r c < 9 := by
  unfold boxOf
  omega

theorem stateWF_place {s : SState} (hw : stateWF s) (r c b n : Nat) :
    stateWF (place s r c b n) :=
  ⟨gridWF_setCell hw.1 _ _ _, tableWF_setT hw.2.1 _ _ _, tableWF_setT hw.2.2.1 _ _ _,
    tableWF_setT hw.2.2.2 _ _ _⟩

theorem unplace_place {s : SState} (hw : stateWF s) {r c : Nat} (hr : r < 9) (hc : c < 9)
    {b n : Nat} (hb : b < 9) (hn : n < 10) (hcell : cell s.grid r c = 0)
    (hrow : getT s.tr.rows r n = false) (hcol : getT s.tr.cols c n = false)
    (hbox : getT s.tr.boxes b n = false) :
    unplace (place s r c b n) r c b n = s := by
  unfold unplace place
  cases s with
  | mk g t =>
      cases t with
      | mk trr trc trb =>
          simp only
          rw [setCell_setCell hw.1 hr hc, setCell_cell_self hcell,
            setT_setT hw.2.1 hr, setT_getT_self hrow,
            setT_setT hw.2.2.1 hc, setT_getT_self hcol,
            setT_setT hw.2.2.2 hb, setT_getT_self hbox]

/-! Specification of the first-empty-cell scan. -/
theorem findZeroFrom_none {g : Grid} : ∀ {n k : Nat}, findZeroFrom g k n = none →
    ∀ j, k ≤ j → j < k + n → cell g (j / 9) (j % 9) ≠ 0 := by
  intro n
  induction n with
  | zero => intro k _ j h1 h2; omega
  | succ m ih =>
      intro k h j h1 h2
      unfold findZeroFrom at h
      by_cases hz : cell g (k / 9) (k % 9) = 0
      · rw [if_pos hz] at h; exact absurd h (by simp)
      · rw [if_neg hz] at h
        by_cases hj : j = k
        · subst hj; exact hz
        · exact ih h j (by omega) (by omega)

theorem findZeroFrom_some {g : Grid} : ∀ {n k m : Nat}, findZeroFrom g k n = some m →
    k ≤ m ∧ m < k + n ∧ cell g (m / 9) (m % 9) = 0 ∧
      ∀ j, k ≤ j → j < m → cell g (j / 9) (j % 9) ≠ 0 := by
  intro n
  induction n with
  | zero => intro k m h; exact absurd h (by unfold findZeroFrom; simp)
  | succ p ih =>
      intro k m h
      unfold findZeroFrom at h
      by_cases hz : cell g (k / 9) (k % 9) = 0
      · rw [if_pos hz] at h
        have hm : k = m := by injection h
        subst hm
        exact ⟨Nat.le_refl _, by omega, hz, fun j h1 h2 => by omega⟩
      · rw [if_neg hz] at h
        obtain ⟨h1, h2, h3, h4⟩ := ih h
        refine ⟨by omega, by omega, h3, fun j hj1 hj2 => ?_⟩
        by_cases hj : j = k
        · subst hj; exact hz
        · exact h4 j (by omega) hj2

theorem firstZero_none {g : Grid} (h : firstZero g = none) :
    ∀ r c, r < 9 → c < 9 → cell g r c ≠ 0 := by
  intro r c hr hc
  have := findZeroFrom_none h (9 * r + c) (Nat.zero_le _) (by omega)
  rw [show (9 * r + c) / 9 = r by omega, show (9 * r + c) % 9 = c by omega] at this
  exact this

theorem firstZero_some {g : Grid} {m : Nat} (h : firstZero g = some m) :
    m < 81 ∧ cell g (m / 9) (m % 9) = 0 ∧
      ∀ j, j < m → cell g (j / 9) (j % 9) ≠ 0 := by
  obtain ⟨_, h2, h3, h4⟩ := findZeroFrom_some h
  exact ⟨by omega, h3, fun j hj => h4 j (Nat.zero_le _) hj⟩

theorem zeros_le : ∀ g : Grid, zeros g ≤ 81 := by
  intro g
  unfold zeros
  have h := List.countP_le_length (p := fun k => cell g (k / 9) (k % 9) == 0)
    (l := List.range 81)
  simpa using h

theorem zeros_eq_zero_iff {g : Grid} :
    zeros g = 0 ↔ ∀ k, k < 81 → cell g (k / 9) (k % 9) ≠ 0 := by
  unfold zeros
  rw [List.countP_eq_zero]
  constructor
  · intro h k hk
    have := h k (List.mem_range.mpr hk)
    simpa using this
  · intro h k hk
    have := h k (List.mem_range.mp hk)
    simpa using this

theorem countP_update {p q : Nat → Bool} {m : Nat} : ∀ {n : Nat}, m < n →
    p m = true → q m = false → (∀ k, k ≠ m → p k = q k) →
    (List.range n).countP p = (List.range n).countP q + 1 := by
  intro n
  induction n with
  | zero => intro h; omega
  | succ n2 ih =>
      intro hm hp hq hpq
      rw [List.range_succ, List.countP_append, List.countP_append]
      by_cases he : m = n2
      · subst he
        have hall : (List.range m).countP p = (List.range m).countP q := by
          apply List.countP_congr
          intro k hk
          rw [hpq k (by have := List.mem_range.mp hk; omega)]
        rw [hall]
        simp [List.countP_cons, hp, hq]
      · have hm2 : m < n2 := by omega
        rw [ih hm2 hp hq hpq]
        have : (List.countP p [n2]) = (List.countP q [n2]) := by
          simp [List.countP_cons, hpq n2 (by omega)]
        omega

theorem zeros_place {g : Grid} (hw : gridWF g) {m v : Nat} (hm : m < 81)
    (hcell : cell g (m / 9) (m % 9) = 0) (hv : v ≠ 0) :
    zeros g = zeros (setCell g (m / 9) (m % 9) v) + 1 := by
  unfold zeros
  apply countP_update hm
  · simp [hcell]
  · rw [cell_setCell_eq hw (by omega) (by omega)]
    simp [hv]
  · intro k hk
    have hne : ¬(k / 9 = m / 9 ∧ k % 9 = m % 9) := by
      intro ⟨h1, h2⟩
      exact hk (by omega)
    rw [cell_setCell_ne g v hne]

/-! Restoration: a failed search leaves the state exactly as it found it. -/
theorem viable_true {t : Trackers} {r c b n : Nat} (h : viable t r c b n = true) :
    getT t.rows r n = false ∧ getT t.cols c n = false ∧ getT t.boxes b n = false := by
  unfold viable at h
  simp only [Bool.and_eq_true, Bool.not_eq_true'] at h
  exact ⟨h.1.1, h.1.2, h.2⟩

theorem tryNums_restWF {recur : SState → Bool × SState}
    (hrec : ∀ t, stateWF t → stateWF (recur t).2 ∧ ((recur t).1 = false → (recur t).2 = t)) :
    ∀ (ns : List Nat) (s : SState), (∀ n ∈ ns, n < 10) → stateWF s →
    ∀ {r c b : Nat}, r < 9 → c < 9 → b < 9 → cell s.grid r c = 0 →
    stateWF (tryNums recur r c b s ns).2 ∧
      ((tryNums recur r c b s ns).1 = false → (tryNums recur r c b s ns).2 = s) := by
  intro ns
  induction ns with
  | nil =>
      intro s _ hws r c b _ _ _ _
      exact ⟨hws, fun _ => rfl⟩
  | cons n rest ih =>
      intro s hns hws r c b hr hc hb hcell
      by_cases hv : viable s.tr r c b n = true
      · have hwp : stateWF (place s r c b n) := stateWF_place hws r c b n
        rcases hres : recur (place s r c b n) with ⟨b2, s2⟩
        cases b2 with
        | true =>
            have : tryNums recur r c b s (n :: rest) = (true, s2) := by
              simp [tryNums, hv, hres]
            rw [this]
            have := (hrec _ hwp).1
            rw [hres] at this
            exact ⟨this, fun h => absurd h (by simp)⟩
        | false =>
            have hs2 : s2 = place s r c b n := by
              have := (hrec _ hwp).2
              rw [hres] at this
              exact this rfl
            obtain ⟨hv1, hv2, hv3⟩ := viable_true hv
            have hun : unplace s2 r c b n = s := by
              rw [hs2]
              exact unplace_place hws hr hc hb (hns n (by simp)) hcell hv1 hv2 hv3
            have heq : tryNums recur r c b s (n :: rest) =
                tryNums recur r c b (unplace s2 r c b n) rest := by
              simp [tryNums, hv, hres]
            rw [heq, hun]
            exact ih s (fun x hx => hns x (by simp [hx])) hws hr hc hb hcell
      · have heq : tryNums recur r c b s (n :: rest) = tryNums recur r c b s rest := by
          simp [tryNums, hv]
        rw [heq]
        exact ih s (fun x hx => hns x (by simp [hx])) hws hr hc hb hcell

theorem solveRecF_restWF : ∀ (fuel : Nat) (s : SState), stateWF s →
    stateWF (solveRecF fuel s).2 ∧
      ((solveRecF fuel s).1 = false → (solveRecF fuel s).2 = s) := by
  intro fuel
  induction fuel with
  | zero =>
      intro s hws
      unfold solveRecF
      cases h : firstZero s.grid with
      | none => exact ⟨hws, fun _ => rfl⟩
      | some k => exact ⟨hws, fun _ => rfl⟩
  | succ fuel ih =>
      intro s hws
      unfold solveRecF
      cases h : firstZero s.grid with
      | none => exact ⟨hws, fun _ => rfl⟩
      | some k =>
          obtain ⟨hk, hcell, _⟩ := firstZero_some h
          have hr : k / 9 < 9 := by omega
          have hc : k % 9 < 9 := by omega
          exact tryNums_restWF (fun t hwt => ih t hwt) digits s (by decide) hws
            hr hc (boxOf_lt hr hc) hcell

/-! The search never changes a non-empty cell. -/
theorem tryNums_mono {recur : SState → Bool × SState}
    (hrec : ∀ t, stateWF t → stateWF (recur t).2 ∧ ((recur t).1 = false → (recur t).2 = t))
    (hmono : ∀ t, stateWF t → ∀ r2 c2, r2 < 9 → c2 < 9 → cell t.grid r2 c2 ≠ 0 →
      cell (recur t).2.grid r2 c2 = cell t.grid r2 c2) :
    ∀ (ns : List Nat) (s : SState), (∀ n ∈ ns, n < 10) → stateWF s →
    ∀ {r c b : Nat}, r < 9 → c < 9 → b < 9 → cell s.grid r c = 0 →
    ∀ r2 c2, r2 < 9 → c2 < 9 → cell s.grid r2 c2 ≠ 0 →
    cell (tryNums recur r c b s ns).2.grid r2 c2 = cell s.grid r2 c2 := by
  intro ns
  induction ns with
  | nil =>
      intro s _ _ r c b _ _ _ _ r2 c2 _ _ _
      rfl
  | cons n rest ih =>
      intro s hns hws r c b hr hc hb hcell r2 c2 hr2 hc2 hnz
      have hne : ¬(r2 = r ∧ c2 = c) := by
        intro ⟨h1, h2⟩
        subst h1; subst h2
        exact hnz hcell
      by_cases hv : viable s.tr r c b n = true
      · have hwp : stateWF (place s r c b n) := stateWF_place hws r c b n
        rcases hres : recur (place s r c b n) with ⟨b2, s2⟩
        cases b2 with
        | true =>
            have heq : tryNums recur r c b s (n :: rest) = (true, s2) := by
              simp [tryNums, hv, hres]
            rw [heq]
            have hplace : cell (place s r c b n).grid r2 c2 = cell s.grid r2 c2 :=
              cell_setCell_ne s.grid n hne
            have := hmono _ hwp r2 c2 hr2 hc2 (by rw [hplace]; exact hnz)
            rw [hres] at this
            simp only at this
            rw [this, hplace]
        | false =>
            have hs2 : s2 = place s r c b n := by
              have := (hrec _ hwp).2
              rw [hres] at this
              exact this rfl
            obtain ⟨hv1, hv2, hv3⟩ := viable_true hv
            have hun : unplace s2 r c b n = s := by
              rw [hs2]
              exact unplace_place hws hr hc hb (hns n (by simp)) hcell hv1 hv2 hv3
            have heq : tryNums recur r c b s (n :: rest) =
                tryNums recur r c b (unplace s2 r c b n) rest := by
              simp [tryNums, hv, hres]
            rw [heq, hun]
            exact ih s (fun x hx => hns x (by simp [hx])) hws hr hc hb hcell r2 c2 hr2 hc2 hnz
      · have heq : tryNums recur r c b s (n :: rest) = tryNums recur r c b s rest := by
          simp [tryNums, hv]
        rw [heq]
        exact ih s (fun x hx => hns x (by simp [hx])) hws hr hc hb hcell r2 c2 hr2 hc2 hnz

theorem solveRecF_mono : ∀ (fuel : Nat) (s : SState), stateWF s →
    ∀ r2 c2, r2 < 9 → c2 < 9 → cell s.grid r2 c2 ≠ 0 →
    cell (solveRecF fuel s).2.grid r2 c2 = cell s.grid r2 c2 := by
  intro fuel
  induction fuel with
  | zero =>
      intro s _ r2 c2 _ _ _
      unfold solveRecF
      cases firstZero s.grid with
      | none => rfl
      | some k => rfl
  | succ fuel ih =>
      intro s hws r2 c2 hr2 hc2 hnz
      unfold solveRecF
      cases h : firstZero s.grid with
      | none => rfl
      | some k =>
          obtain ⟨hk, hcell, _⟩ := firstZero_some h
          have hr : k / 9 < 9 := by omega
          have hc : k % 9 < 9 := by omega
          exact tryNums_mono (fun t hwt => solveRecF_restWF fuel t hwt)
            (fun t hwt => ih t hwt) digits s (by decide) hws
            hr hc (boxOf_lt hr hc) hcell r2 c2 hr2 hc2 hnz

theorem getD_replicate {α : Type} (x d : α) :
    ∀ (n i : Nat), (List.replicate n x).getD i d = if i < n then x else d
  | 0, i => by simp
  | n + 1, 0 => by simp [List.replicate]
  | n + 1, i + 1 => by
      simp only [List.replicate, List.getD_cons_succ]
      rw [getD_replicate x d n i]
      by_cases h : i < n
      · rw [if_pos h, if_pos (by omega)]
      · rw [if_neg h, if_neg (by omega)]

theorem getT_empty (u d : Nat) : getT emptyTable u d = false := by
  unfold getT emptyTable
  rw [getD_replicate]
  by_cases h : u < 9
  · rw [if_pos h, getD_replicate]
    by_cases h2 : d < 10
    · rw [if_pos h2]
    · rw [if_neg h2]
  · rw [if_neg h]
    rfl

theorem getT_setT_iff {t : List (List Bool)} (hw : tableWF t) {u0 d0 : Nat}
    (hu0 : u0 < 9) (hd0 : d0 < 10) (u d : Nat) :
    (getT (setT t u0 d0 true) u d = true ↔ ((u = u0 ∧ d = d0) ∨ getT t u d = true)) := by
  by_cases h : u = u0 ∧ d = d0
  · obtain ⟨h1, h2⟩ := h
    subst h1; subst h2
    rw [getT_setT_eq hw hu0 hd0]
    simp
  · rw [getT_setT_ne _ _ h]
    simp [h]

theorem initPart_succ (g : Grid) (m : Nat) :
    initPart g (m + 1) = initStep g (initPart g m) m := by
  unfold initPart
  rw [List.range_succ, List.foldl_append]
  rfl

theorem initPart_spec {g : Grid} (h9 : cellsLe9 g) : ∀ m, m ≤ 81 →
    tableWF (initPart g m).rows ∧ tableWF (initPart g m).cols ∧
    tableWF (initPart g m).boxes ∧
    (∀ u < 9, ∀ d : Nat, (getT (initPart g m).rows u d = true ↔
      d ≠ 0 ∧ ∃ k < m, k / 9 = u ∧ cell g (k / 9) (k % 9) = d)) ∧
    (∀ u < 9, ∀ d : Nat, (getT (initPart g m).cols u d = true ↔
      d ≠ 0 ∧ ∃ k < m, k % 9 = u ∧ cell g (k / 9) (k % 9) = d)) ∧
    (∀ u < 9, ∀ d : Nat, (getT (initPart g m).boxes u d = true ↔
      d ≠ 0 ∧ ∃ k < m, boxOf (k / 9) (k % 9) = u ∧ cell g (k / 9) (k % 9) = d)) := by
  intro m
  induction m with
  | zero =>
      intro _
      refine ⟨tableWF_empty, tableWF_empty, tableWF_empty, ?_, ?_, ?_⟩ <;>
        · intro u _ d
          rw [show initPart g 0 = ⟨emptyTable, emptyTable, emptyTable⟩ from rfl]
          simp [getT_empty]
  | succ m ih =>
      intro hm
      obtain ⟨hwr, hwc, hwb, hexr, hexc, hexb⟩ := ih (by omega)
      rw [initPart_succ]
      unfold initStep
      by_cases hz : cell g (m / 9) (m % 9) ≠ 0
      · simp only [hz, if_pos, ne_eq, not_false_eq_true, if_true]
        have hr9 : m / 9 < 9 := by omega
        have hc9 : m % 9 < 9 := by omega
        have hv10 : cell g (m / 9) (m % 9) < 10 := by
          have := h9 (m / 9) hr9 (m % 9) hc9
          omega
        refine ⟨tableWF_setT hwr _ _ _, tableWF_setT hwc _ _ _, tableWF_setT hwb _ _ _,
          ?_, ?_, ?_⟩
        · intro u hu d
          rw [getT_setT_iff hwr hr9 hv10]
          constructor
          · intro h
            rcases h with ⟨h1, h2⟩ | h
            · exact ⟨by omega, m, by omega, h1.symm, h2.symm⟩
            · obtain ⟨hd, k, hk, hku, hkd⟩ := (hexr u hu d).mp h
              exact ⟨hd, k, by omega, hku, hkd⟩
          · intro ⟨hd, k, hk, hku, hkd⟩
            by_cases hkm : k = m
            · subst hkm
              exact Or.inl ⟨hku.symm, hkd.symm⟩
            · exact Or.inr ((hexr u hu d).mpr ⟨hd, k, by omega, hku, hkd⟩)
        · intro u hu d
          rw [getT_setT_iff hwc hc9 hv10]
          constructor
          · intro h
            rcases h with ⟨h1, h2⟩ | h
            · exact ⟨by omega, m, by omega, h1.symm, h2.symm⟩
            · obtain ⟨hd, k, hk, hku, hkd⟩ := (hexc u hu d).mp h
              exact ⟨hd, k, by omega, hku, hkd⟩
          · intro ⟨hd, k, hk, hku, hkd⟩
            by_cases hkm : k = m
            · subst hkm
              exact Or.inl ⟨hku.symm, hkd.symm⟩
            · exact Or.inr ((hexc u hu d).mpr ⟨hd, k, by omega, hku, hkd⟩)
        · intro u hu d
          rw [getT_setT_iff hwb (boxOf_lt hr9 hc9) hv10]
          constructor
          · intro h
            rcases h with ⟨h1, h2⟩ | h
            · exact ⟨by omega, m, by omega, h1.symm, h2.symm⟩
            · obtain ⟨hd, k, hk, hku, hkd⟩ := (hexb u hu d).mp h
              exact ⟨hd, k, by omega, hku, hkd⟩
          · intro ⟨hd, k, hk, hku, hkd⟩
            by_cases hkm : k = m
            · subst hkm
              exact Or.inl ⟨hku.symm, hkd.symm⟩
            · exact Or.inr ((hexb u hu d).mpr ⟨hd, k, by omega, hku, hkd⟩)
      · push_neg at hz
        simp only [hz, ne_eq, not_true_eq_false, if_false]
        refine ⟨hwr, hwc, hwb, ?_, ?_, ?_⟩
        · intro u hu d
          rw [hexr u hu d]
          constructor
          · intro ⟨hd, k, hk, hku, hkd⟩
            exact ⟨hd, k, by omega, hku, hkd⟩
          · intro ⟨hd, k, hk, hku, hkd⟩
            by_cases hkm : k = m
            · subst hkm; rw [hz] at hkd; exact absurd hkd.symm hd
            · exact ⟨hd, k, by omega, hku, hkd⟩
        · intro u hu d
          rw [hexc u hu d]
          constructor
          · intro ⟨hd, k, hk, hku, hkd⟩
            exact ⟨hd, k, by omega, hku, hkd⟩
          · intro ⟨hd, k, hk, hku, hkd⟩
            by_cases hkm : k = m
            · subst hkm; rw [hz] at hkd; exact absurd hkd.symm hd
            · exact ⟨hd, k, by omega, hku, hkd⟩
        · intro u hu d
          rw [hexb u hu d]
          constructor
          · intro ⟨hd, k, hk, hku, hkd⟩
            exact ⟨hd, k, by omega, hku, hkd⟩
          · intro ⟨hd, k, hk, hku, hkd⟩
            by_cases hkm : k = m
            · subst hkm; rw [hz] at hkd; exact absurd hkd.symm hd
            · exact ⟨hd, k, by omega, hku, hkd⟩

theorem initTrackers_exact {g : Grid} (h9 : cellsLe9 g) :
    tableWF (initTrackers g).rows ∧ tableWF (initTrackers g).cols ∧
    tableWF (initTrackers g).boxes ∧
    rowsExact g (initTrackers g).rows ∧ colsExact g (initTrackers g).cols ∧
    boxesExact g (initTrackers g).boxes := by
  obtain ⟨hwr, hwc, hwb, hexr, hexc, hexb⟩ := initPart_spec h9 81 (by omega)
  have hinit : initTrackers g = initPart g 81 := rfl
  rw [hinit]
  refine ⟨hwr, hwc, hwb, ?_, ?_, ?_⟩
  · intro u hu d
    rw [hexr u hu d]
    constructor
    · intro ⟨hd, k, hk, hku, hkd⟩
      refine ⟨hd, k % 9, by omega, ?_⟩
      rw [← hku]
      exact hkd
    · intro ⟨hd, c2, hc2, hcd⟩
      refine ⟨hd, 9 * u + c2, by omega, by omega, ?_⟩
      rw [show (9 * u + c2) / 9 = u by omega, show (9 * u + c2) % 9 = c2 by omega]
      exact hcd
  · intro u hu d
    rw [hexc u hu d]
    constructor
    · intro ⟨hd, k, hk, hku, hkd⟩
      refine ⟨hd, k / 9, by omega, ?_⟩
      rw [← hku]
      exact hkd
    · intro ⟨hd, r2, hr2, hrd⟩
      refine ⟨hd, 9 * r2 + u, by omega, by omega, ?_⟩
      rw [show (9 * r2 + u) / 9 = r2 by omega, show (9 * r2 + u) % 9 = u by omega]
      exact hrd
  · intro u hu d
    rw [hexb u hu d]
    constructor
    · intro ⟨hd, k, hk, hku, hkd⟩
      exact ⟨hd, k / 9, by omega, k % 9, by omega, hku, hkd⟩
    · intro ⟨hd, r2, hr2, c2, hc2, hbu, hcd⟩
      refine ⟨hd, 9 * r2 + c2, by omega, ?_, ?_⟩
      · rw [show (9 * r2 + c2) / 9 = r2 by omega, show (9 * r2 + c2) % 9 = c2 by omega]
        exact hbu
      · rw [show (9 * r2 + c2) / 9 = r2 by omega, show (9 * r2 + c2) % 9 = c2 by omega]
        exact hcd

theorem solverInv_init {g : Grid} (hw : gridWF g) (h9 : cellsLe9 g) (hcon : consistent g) :
    solverInv ⟨g, initTrackers g⟩ := by
  obtain ⟨hwr, hwc, hwb, hexr, hexc, hexb⟩ := initTrackers_exact h9
  exact ⟨⟨hw, hwr, hwc, hwb⟩, h9, hcon, hexr, hexc, hexb⟩

theorem solverInv_place {s : SState} (hInv : solverInv s) {r c n : Nat} (hr : r < 9)
    (hc : c < 9) (hn1 : 1 ≤ n) (hn9 : n ≤ 9) (hcell : cell s.grid r c = 0)
    (hv : viable s.tr r c (boxOf r c) n = true) :
    solverInv (place s r c (boxOf r c) n) := by
  obtain ⟨⟨hwg, hwr, hwc, hwb⟩, h9, hcon, hexr, hexc, hexb⟩ := hInv
  obtain ⟨hv1, hv2, hv3⟩ := viable_true hv
  have hn10 : n < 10 := by omega
  have hcell_eq : cell (setCell s.grid r c n) r c = n := cell_setCell_eq hwg hr hc n
  have hcell_ne : ∀ {a b : Nat}, ¬(a = r ∧ b = c) →
      cell (setCell s.grid r c n) a b = cell s.grid a b := fun h => cell_setCell_ne _ n h
  refine ⟨stateWF_place ⟨hwg, hwr, hwc, hwb⟩ _ _ _ _, ?_, ?_, ?_, ?_, ?_⟩
  · -- cells stay in the u8 tracker range
    show cellsLe9 (setCell s.grid r c n)
    intro a ha b hb
    by_cases h : a = r ∧ b = c
    · obtain ⟨h1, h2⟩ := h
      subst h1; subst h2
      rw [hcell_eq]
      exact hn9
    · rw [hcell_ne h]
      exact h9 a ha b hb
  · -- the new grid stays consistent
    show consistent (setCell s.grid r c n)
    have key : ∀ a2 b2, a2 < 9 → b2 < 9 →
        (r = a2 ∨ c = b2 ∨ boxOf r c = boxOf a2 b2) → cell s.grid a2 b2 ≠ n := by
      intro a2 b2 ha2 hb2 hunit hval
      rcases hunit with h | h | h
      · exact absurd ((hexr r hr n).mpr ⟨by omega, b2, hb2, by rw [h]; exact hval⟩)
          (by rw [hv1]; simp)
      · exact absurd ((hexc c hc n).mpr ⟨by omega, a2, ha2, by rw [h]; exact hval⟩)
          (by rw [hv2]; simp)
      · exact absurd ((hexb (boxOf r c) (boxOf_lt hr hc) n).mpr
          ⟨by omega, a2, ha2, b2, hb2, h.symm, hval⟩) (by rw [hv3]; simp)
    intro a ha b hb a2 ha2 b2 hb2 hne hunit hnz heq
    by_cases hp1 : a = r ∧ b = c
    · by_cases hp2 : a2 = r ∧ b2 = c
      · exact hne ⟨hp1.1.trans hp2.1.symm, hp1.2.trans hp2.2.symm⟩
      · rw [hp1.1, hp1.2, hcell_eq] at heq
        rw [hcell_ne hp2] at heq
        have hunit2 : r = a2 ∨ c = b2 ∨ boxOf r c = boxOf a2 b2 := by
          rw [hp1.1, hp1.2] at hunit
          exact hunit
        exact key a2 b2 ha2 hb2 hunit2 heq.symm
    · rw [hcell_ne hp1] at hnz heq
      by_cases hp2 : a2 = r ∧ b2 = c
      · rw [hp2.1, hp2.2, hcell_eq] at heq
        have hunit2 : r = a ∨ c = b ∨ boxOf r c = boxOf a b := by
          rw [hp2.1, hp2.2] at hunit
          rcases hunit with h | h | h
          · exact Or.inl h.symm
          · exact Or.inr (Or.inl h.symm)
          · exact Or.inr (Or.inr h.symm)
        exact key a b ha hb hunit2 heq
      · rw [hcell_ne hp2] at heq
        exact hcon a ha b hb a2 ha2 b2 hb2 hne hunit hnz heq
  · -- rows table exactness
    show rowsExact (setCell s.grid r c n) (setT s.tr.rows r n true)
    intro u hu d
    rw [getT_setT_iff hwr hr hn10]
    constructor
    · intro h
      rcases h with ⟨h1, h2⟩ | h
      · subst h1; subst h2
        exact ⟨by omega, c, hc, hcell_eq⟩
      · obtain ⟨hd, c2, hc2, hcd⟩ := (hexr u hu d).mp h
        refine ⟨hd, c2, hc2, ?_⟩
        rw [hcell_ne (fun hh => by
          obtain ⟨e1, e2⟩ := hh
          subst e1; subst e2
          exact hd (by rw [← hcd, hcell]))]
        exact hcd
    · intro ⟨hd, c2, hc2, hcd⟩
      by_cases h : u = r ∧ c2 = c
      · obtain ⟨h1, h2⟩ := h
        subst h1; subst h2
        rw [hcell_eq] at hcd
        exact Or.inl ⟨rfl, hcd.symm⟩
      · rw [hcell_ne h] at hcd
        exact Or.inr ((hexr u hu d).mpr ⟨hd, c2, hc2, hcd⟩)
  · -- cols table exactness
    show colsExact (setCell s.grid r c n) (setT s.tr.cols c n true)
    intro u hu d
    rw [getT_setT_iff hwc hc hn10]
    constructor
    · intro h
      rcases h with ⟨h1, h2⟩ | h
      · subst h1; subst h2
        exact ⟨by omega, r, hr, hcell_eq⟩
      · obtain ⟨hd, r2, hr2, hrd⟩ := (hexc u hu d).mp h
        refine ⟨hd, r2, hr2, ?_⟩
        rw [hcell_ne (fun hh => by
          obtain ⟨e1, e2⟩ := hh
          subst e1; subst e2
          exact hd (by rw [← hrd, hcell]))]
        exact hrd
    · intro ⟨hd, r2, hr2, hrd⟩
      by_cases h : r2 = r ∧ u = c
      · obtain ⟨h1, h2⟩ := h
        subst h1; subst h2
        rw [hcell_eq] at hrd
        exact Or.inl ⟨rfl, hrd.symm⟩
      · rw [hcell_ne h] at hrd
        exact Or.inr ((hexc u hu d).mpr ⟨hd, r2, hr2, hrd⟩)
  · -- boxes table exactness
    show boxesExact (setCell s.grid r c n) (setT s.tr.boxes (boxOf r c) n true)
    intro u hu d
    rw [getT_setT_iff hwb (boxOf_lt hr hc) hn10]
    constructor
    · intro h
      rcases h with ⟨h1, h2⟩ | h
      · subst h1; subst h2
        exact ⟨by omega, r, hr, c, hc, rfl, hcell_eq⟩
      · obtain ⟨hd, r2, hr2, c2, hc2, hbu, hcd⟩ := (hexb u hu d).mp h
        refine ⟨hd, r2, hr2, c2, hc2, hbu, ?_⟩
        rw [hcell_ne (fun hh => by
          obtain ⟨e1, e2⟩ := hh
          subst e1; subst e2
          exact hd (by rw [← hcd, hcell]))]
        exact hcd
    · intro ⟨hd, r2, hr2, c2, hc2, hbu, hcd⟩
      by_cases h : r2 = r ∧ c2 = c
      · obtain ⟨h1, h2⟩ := h
        subst h1; subst h2
        rw [hcell_eq] at hcd
        exact Or.inl ⟨hbu.symm, hcd.symm⟩
      · rw [hcell_ne h] at hcd
        exact Or.inr ((hexb u hu d).mpr ⟨hd, r2, hr2, c2, hc2, hbu, hcd⟩)

/-! Soundness: a successful search returns a full grid satisfying the
invariant. -/
theorem tryNums_sound {recur : SState → Bool × SState}
    (hrec : ∀ t, stateWF t → stateWF (recur t).2 ∧ ((recur t).1 = false → (recur t).2 = t))
    (hsound : ∀ t, solverInv t → (recur t).1 = true →
      solverInv (recur t).2 ∧ full (recur t).2.grid) :
    ∀ (ns : List Nat) (s : SState), (∀ n ∈ ns, 1 ≤ n ∧ n ≤ 9) → solverInv s →
    ∀ {r c : Nat}, r < 9 → c < 9 → cell s.grid r c = 0 →
    (tryNums recur r c (boxOf r c) s ns).1 = true →
    solverInv (tryNums recur r c (boxOf r c) s ns).2 ∧
      full (tryNums recur r c (boxOf r c) s ns).2.grid := by
  intro ns
  induction ns with
  | nil =>
      intro s _ _ r c _ _ _ htrue
      exact absurd htrue (by simp [tryNums])
  | cons n rest ih =>
      intro s hns hInv r c hr hc hcell htrue
      have hws : stateWF s := hInv.1
      by_cases hv : viable s.tr r c (boxOf r c) n = true
      · have hInvP : solverInv (place s r c (boxOf r c) n) :=
          solverInv_place hInv hr hc (hns n (by simp)).1 (hns n (by simp)).2 hcell hv
        rcases hres : recur (place s r c (boxOf r c) n) with ⟨b2, s2⟩
        cases b2 with
        | true =>
            have heq : tryNums recur r c (boxOf r c) s (n :: rest) = (true, s2) := by
              simp [tryNums, hv, hres]
            rw [heq]
            have := hsound _ hInvP (by rw [hres])
            rw [hres] at this
            exact this
        | false =>
            have hs2 : s2 = place s r c (boxOf r c) n := by
              have := (hrec (place s r c (boxOf r c) n)
                (stateWF_place hws r c (boxOf r c) n)).2
              rw [hres] at this
              exact this rfl
            obtain ⟨hv1, hv2, hv3⟩ := viable_true hv
            have hun : unplace s2 r c (boxOf r c) n = s := by
              rw [hs2]
              exact unplace_place hws hr hc (boxOf_lt hr hc)
                (by have := (hns n (by simp)).2; omega) hcell hv1 hv2 hv3
            have heq : tryNums recur r c (boxOf r c) s (n :: rest) =
                tryNums recur r c (boxOf r c) (unplace s2 r c (boxOf r c) n) rest := by
              simp [tryNums, hv, hres]
            rw [heq, hun] at htrue ⊢
            exact ih s (fun x hx => hns x (by simp [hx])) hInv hr hc hcell htrue
      · have heq : tryNums recur r c (boxOf r c) s (n :: rest) =
            tryNums recur r c (boxOf r c) s rest := by
          simp [tryNums, hv]
        rw [heq] at htrue ⊢
        exact ih s (fun x hx => hns x (by simp [hx])) hInv hr hc hcell htrue

theorem solveRecF_sound : ∀ (fuel : Nat) (s : SState), solverInv s →
    (solveRecF fuel s).1 = true →
    solverInv (solveRecF fuel s).2 ∧ full (solveRecF fuel s).2.grid := by
  intro fuel
  induction fuel with
  | zero =>
      intro s hInv htrue
      unfold solveRecF at htrue ⊢
      cases h : firstZero s.grid with
      | none =>
          refine ⟨hInv, ?_⟩
          intro r hr c hc
          have := firstZero_none h r c hr hc
          exact this
      | some k =>
          rw [h] at htrue
          exact absurd htrue (by simp)
  | succ fuel ih =>
      intro s hInv htrue
      unfold solveRecF at htrue ⊢
      cases h : firstZero s.grid with
      | none =>
          refine ⟨hInv, ?_⟩
          intro r hr c hc
          exact firstZero_none h r c hr hc
      | some k =>
          rw [h] at htrue
          obtain ⟨hk, hcell, _⟩ := firstZero_some h
          have hr : k / 9 < 9 := by omega
          have hc : k % 9 < 9 := by omega
          exact tryNums_sound (fun t hwt => solveRecF_restWF fuel t hwt)
            (fun t hwt htt => ih t hwt htt) digits s (by decide) hInv hr hc hcell htrue

theorem rmAux_congr {a b : Grid} : ∀ (n k : Nat),
    (∀ j, k ≤ j → j < k + n → cell a (j / 9) (j % 9) = cell b (j / 9) (j % 9)) →
    rmAux a k n = rmAux b k n
  | 0, k, _ => rfl
  | Nat.succ n, k, hcong => by
      unfold rmAux
      rw [hcong k (Nat.le_refl _) (by omega)]
      rw [rmAux_congr n (k + 1) (fun j h1 h2 => hcong j (by omega) (by omega))]

theorem rmAux_lex {a b : Grid} {m : Nat} : ∀ (n k : Nat), k ≤ m → m < k + n →
    (∀ j, k ≤ j → j < m → cell a (j / 9) (j % 9) = cell b (j / 9) (j % 9)) →
    cell a (m / 9) (m % 9) < cell b (m / 9) (m % 9) →
    List.Lex (· < ·) (rmAux a k n) (rmAux b k n)
  | 0, k, h1, h2, _, _ => by omega
  | Nat.succ n, k, h1, h2, hcong, hlt => by
      unfold rmAux
      by_cases hk : k = m
      · subst hk
        exact List.Lex.rel hlt
      · rw [hcong k (Nat.le_refl _) (by omega)]
        exact List.Lex.cons (rmAux_lex n (k + 1) (by omega) (by omega)
          (fun j ha hb => hcong j (by omega) hb) hlt)

theorem rmList_congr {a b : Grid}
    (h : ∀ j, j < 81 → cell a (j / 9) (j % 9) = cell b (j / 9) (j % 9)) :
    rmList a = rmList b :=
  rmAux_congr 81 0 (fun j _ h2 => h j (by omega))

theorem rmList_lex {a b : Grid} {m : Nat} (hm : m < 81)
    (hcong : ∀ j, j < m → cell a (j / 9) (j % 9) = cell b (j / 9) (j % 9))
    (hlt : cell a (m / 9) (m % 9) < cell b (m / 9) (m % 9)) :
    List.Lex (· < ·) (rmList a) (rmList b) :=
  rmAux_lex 81 0 (Nat.zero_le _) (by omega) (fun j _ h2 => hcong j h2) hlt

/-- The digit a completion assigns to the first empty cell passes the
viability test of solve_rec. -/
theorem completion_digit_viable {s : SState} (hInv : solverInv s) {k : Nat}
    (hk : firstZero s.grid = some k) {h : Grid} (hcomp : Completion s.grid h) :
    viable s.tr (k / 9) (k % 9) (boxOf (k / 9) (k % 9)) (cell h (k / 9) (k % 9)) = true := by
  obtain ⟨hk81, hcell, _⟩ := firstZero_some hk
  have hr : k / 9 < 9 := by omega
  have hc : k % 9 < 9 := by omega
  obtain ⟨_, _, hcon, hexr, hexc, hexb⟩ := hInv
  obtain ⟨hwh, hdig, hconh, hext⟩ := hcomp
  have hd := hdig (k / 9) hr (k % 9) hc
  have h1 : getT s.tr.rows (k / 9) (cell h (k / 9) (k % 9)) = false := by
    by_cases hb : getT s.tr.rows (k / 9) (cell h (k / 9) (k % 9)) = true
    · obtain ⟨hd0, c2, hc2, hs2⟩ := (hexr (k / 9) hr _).mp hb
      have hne : c2 ≠ k % 9 := by
        intro he
        rw [he, hcell] at hs2
        exact hd0 hs2.symm
      have hh2 : cell h (k / 9) c2 = cell h (k / 9) (k % 9) := by
        rw [hext (k / 9) hr c2 hc2 (by omega)]
        exact hs2
      exact absurd hh2 (hconh (k / 9) hr c2 hc2 (k / 9) hr (k % 9) hc
        (fun he => hne he.2) (Or.inl rfl) (by rw [hext (k / 9) hr c2 hc2 (by omega)]; omega))
    · exact Bool.not_eq_true _ ▸ (Bool.eq_false_iff.mpr (fun he => hb he))
  have h2 : getT s.tr.cols (k % 9) (cell h (k / 9) (k % 9)) = false := by
    by_cases hb : getT s.tr.cols (k % 9) (cell h (k / 9) (k % 9)) = true
    · obtain ⟨hd0, r2, hr2, hs2⟩ := (hexc (k % 9) hc _).mp hb
      have hne : r2 ≠ k / 9 := by
        intro he
        rw [he, hcell] at hs2
        exact hd0 hs2.symm
      have hh2 : cell h r2 (k % 9) = cell h (k / 9) (k % 9) := by
        rw [hext r2 hr2 (k % 9) hc (by omega)]
        exact hs2
      exact absurd hh2 (hconh r2 hr2 (k % 9) hc (k / 9) hr (k % 9) hc
        (fun he => hne he.1) (Or.inr (Or.inl rfl))
        (by rw [hext r2 hr2 (k % 9) hc (by omega)]; omega))
    · exact Bool.not_eq_true _ ▸ (Bool.eq_false_iff.mpr (fun he => hb he))
  have h3 : getT s.tr.boxes (boxOf (k / 9) (k % 9)) (cell h (k / 9) (k % 9)) = false := by
    by_cases hb : getT s.tr.boxes (boxOf (k / 9) (k % 9)) (cell h (k / 9) (k % 9)) = true
    · obtain ⟨hd0, r2, hr2, c2, hc2, hbu, hs2⟩ := (hexb _ (boxOf_lt hr hc) _).mp hb
      have hne : ¬(r2 = k / 9 ∧ c2 = k % 9) := by
        intro ⟨he1, he2⟩
        rw [he1, he2, hcell] at hs2
        exact hd0 hs2.symm
      have hh2 : cell h r2 c2 = cell h (k / 9) (k % 9) := by
        rw [hext r2 hr2 c2 hc2 (by omega)]
        exact hs2
      exact absurd hh2 (hconh r2 hr2 c2 hc2 (k / 9) hr (k % 9) hc hne
        (Or.inr (Or.inr hbu)) (by rw [hext r2 hr2 c2 hc2 (by omega)]; omega))
    · exact Bool.not_eq_true _ ▸ (Bool.eq_false_iff.mpr (fun he => hb he))
  unfold viable
  rw [h1, h2, h3]
  rfl

theorem Completion_setCell {g h : Grid} (hcomp : Completion g h) (hg : gridWF g)
    {r c n : Nat} (hr : r < 9) (hc : c < 9) (hval : cell h r c = n) :
    Completion (setCell g r c n) h := by
  obtain ⟨hwh, hdig, hconh, hext⟩ := hcomp
  refine ⟨hwh, hdig, hconh, ?_⟩
  intro a ha b hb hnz
  by_cases hab : a = r ∧ b = c
  · obtain ⟨h1, h2⟩ := hab
    subst h1; subst h2
    rw [cell_setCell_eq hg hr hc]
    exact hval
  · rw [cell_setCell_ne g n hab] at hnz ⊢
    exact hext a ha b hb hnz

theorem tryNums_best {recur : SState → Bool × SState} {fuel : Nat}
    (hrec : ∀ t, stateWF t → stateWF (recur t).2 ∧ ((recur t).1 = false → (recur t).2 = t))
    (hmono : ∀ t, stateWF t → ∀ r2 c2, r2 < 9 → c2 < 9 → cell t.grid r2 c2 ≠ 0 →
      cell (recur t).2.grid r2 c2 = cell t.grid r2 c2)
    (hbest : ∀ t, solverInv t → zeros t.grid ≤ fuel → ∀ h2, Completion t.grid h2 →
      (recur t).1 = true ∧ (rmList (recur t).2.grid = rmList h2 ∨
        List.Lex (· < ·) (rmList (recur t).2.grid) (rmList h2))) :
    ∀ (ns : List Nat) (s : SState), List.Pairwise (· < ·) ns →
    (∀ n ∈ ns, 1 ≤ n ∧ n ≤ 9) → solverInv s →
    ∀ {k : Nat}, firstZero s.grid = some k → zeros s.grid ≤ fuel + 1 →
    ∀ h, Completion s.grid h → cell h (k / 9) (k % 9) ∈ ns →
    (tryNums recur (k / 9) (k % 9) (boxOf (k / 9) (k % 9)) s ns).1 = true ∧
      (rmList (tryNums recur (k / 9) (k % 9) (boxOf (k / 9) (k % 9)) s ns).2.grid =
          rmList h ∨
        List.Lex (· < ·)
          (rmList (tryNums recur (k / 9) (k % 9) (boxOf (k / 9) (k % 9)) s ns).2.grid)
          (rmList h)) := by
  intro ns
  induction ns with
  | nil =>
      intro s _ _ _ k _ _ h _ hmem
      exact absurd hmem (by simp)
  | cons n rest ih =>
      intro s hsort hns hInv k hk hfuel h hcomp hmem
      obtain ⟨hk81, hcell, hfirst⟩ := firstZero_some hk
      have hr : k / 9 < 9 := by omega
      have hc : k % 9 < 9 := by omega
      have hws : stateWF s := hInv.1
      by_cases hv : viable s.tr (k / 9) (k % 9) (boxOf (k / 9) (k % 9)) n = true
      · have hn1 : 1 ≤ n := (hns n (by simp)).1
        have hn9 : n ≤ 9 := (hns n (by simp)).2
        have hInvP : solverInv (place s (k / 9) (k % 9) (boxOf (k / 9) (k % 9)) n) :=
          solverInv_place hInv hr hc hn1 hn9 hcell hv
        have hwsP : stateWF (place s (k / 9) (k % 9) (boxOf (k / 9) (k % 9)) n) :=
          stateWF_place hws _ _ _ _
        have hpg : (place s (k / 9) (k % 9) (boxOf (k / 9) (k % 9)) n).grid =
            setCell s.grid (k / 9) (k % 9) n := rfl
        have hzP : zeros (place s (k / 9) (k % 9) (boxOf (k / 9) (k % 9)) n).grid ≤ fuel := by
          have := zeros_place hws.1 hk81 hcell (by omega : n ≠ 0)
          rw [hpg]
          omega
        rcases hres : recur (place s (k / 9) (k % 9) (boxOf (k / 9) (k % 9)) n)
          with ⟨b2, s2⟩
        cases b2 with
        | true =>
            have heq : tryNums recur (k / 9) (k % 9) (boxOf (k / 9) (k % 9)) s (n :: rest) =
                (true, s2) := by
              simp [tryNums, hv, hres]
            rw [heq]
            by_cases hnd : cell h (k / 9) (k % 9) = n
            · have hcompP : Completion (place s (k / 9) (k % 9)
                  (boxOf (k / 9) (k % 9)) n).grid h := by
                rw [hpg]
                exact Completion_setCell hcomp hws.1 hr hc hnd
              have hb2 := hbest _ hInvP hzP h hcompP
              rw [hres] at hb2
              exact ⟨rfl, hb2.2⟩
            · -- the solver filled the cell with a smaller digit than the
              -- completion h holds there, so its result is lexicographically
              -- smaller than h
              have hdrest : cell h (k / 9) (k % 9) ∈ rest := by
                rcases List.mem_cons.mp hmem with he | he
                · exact absurd he hnd
                · exact he
              have hlt : n < cell h (k / 9) (k % 9) :=
                (List.pairwise_cons.mp hsort).1 _ hdrest
              have hpcell : cell (place s (k / 9) (k % 9)
                  (boxOf (k / 9) (k % 9)) n).grid (k / 9) (k % 9) = n := by
                rw [hpg]
                exact cell_setCell_eq hws.1 hr hc n
              have hs2cell : cell s2.grid (k / 9) (k % 9) = n := by
                have hmm := hmono _ hwsP (k / 9) (k % 9) hr hc (by rw [hpcell]; omega)
                rw [hres] at hmm
                simp only at hmm
                rw [hmm, hpcell]
              have hpre : ∀ j, j < k →
                  cell s2.grid (j / 9) (j % 9) = cell h (j / 9) (j % 9) := by
                intro j hj
                have hjr : j / 9 < 9 := by omega
                have hjc : j % 9 < 9 := by omega
                have hjnz : cell s.grid (j / 9) (j % 9) ≠ 0 := hfirst j hj
                have hjne : ¬(j / 9 = k / 9 ∧ j % 9 = k % 9) := by
                  intro ⟨e1, e2⟩
                  exact absurd hcell (by rw [← e1, ← e2]; exact hjnz)
                have hpj : cell (place s (k / 9) (k % 9)
                    (boxOf (k / 9) (k % 9)) n).grid (j / 9) (j % 9) =
                    cell s.grid (j / 9) (j % 9) := by
                  rw [hpg]
                  exact cell_setCell_ne s.grid n hjne
                have hmm := hmono _ hwsP (j / 9) (j % 9) hjr hjc (by rw [hpj]; exact hjnz)
                rw [hres] at hmm
                simp only at hmm
                rw [hmm, hpj, hcomp.2.2.2 (j / 9) hjr (j % 9) hjc hjnz]
              refine ⟨rfl, Or.inr (rmList_lex hk81 hpre ?_)⟩
              rw [hs2cell]
              exact hlt
        | false =>
            have hs2 : s2 = place s (k / 9) (k % 9) (boxOf (k / 9) (k % 9)) n := by
              have hre := (hrec (place s (k / 9) (k % 9) (boxOf (k / 9) (k % 9)) n)
                hwsP).2
              rw [hres] at hre
              exact hre rfl
            have hnd : cell h (k / 9) (k % 9) ≠ n := by
              intro he
              have hcompP : Completion (place s (k / 9) (k % 9)
                  (boxOf (k / 9) (k % 9)) n).grid h := by
                rw [hpg]
                exact Completion_setCell hcomp hws.1 hr hc he
              have hb2 := hbest _ hInvP hzP h hcompP
              rw [hres] at hb2
              exact absurd hb2.1 (by simp)
            obtain ⟨hv1, hv2, hv3⟩ := viable_true hv
            have hun : unplace s2 (k / 9) (k % 9) (boxOf (k / 9) (k % 9)) n = s := by
              rw [hs2]
              exact unplace_place hws hr hc (boxOf_lt hr hc) (by omega) hcell hv1 hv2 hv3
            have heq : tryNums recur (k / 9) (k % 9) (boxOf (k / 9) (k % 9)) s (n :: rest) =
                tryNums recur (k / 9) (k % 9) (boxOf (k / 9) (k % 9))
                  (unplace s2 (k / 9) (k % 9) (boxOf (k / 9) (k % 9)) n) rest := by
              simp [tryNums, hv, hres]
            rw [heq, hun]
            have hdrest : cell h (k / 9) (k % 9) ∈ rest := by
              rcases List.mem_cons.mp hmem with he | he
              · exact absurd he hnd
              · exact he
            exact ih s (List.pairwise_cons.mp hsort).2
              (fun x hx => hns x (by simp [hx])) hInv hk hfuel h hcomp hdrest
      · -- the head digit is not viable, so it is not the completion digit
        have hdv := completion_digit_viable hInv hk hcomp
        have hnd : cell h (k / 9) (k % 9) ≠ n := by
          intro he
          rw [he] at hdv
          exact hv hdv
        have heq : tryNums recur (k / 9) (k % 9) (boxOf (k / 9) (k % 9)) s (n :: rest) =
            tryNums recur (k / 9) (k % 9) (boxOf (k / 9) (k % 9)) s rest := by
          simp [tryNums, hv]
        rw [heq]
        have hdrest : cell h (k / 9) (k % 9) ∈ rest := by
          rcases List.mem_cons.mp hmem with he | he
          · exact absurd he hnd
          · exact he
        exact ih s (List.pairwise_cons.mp hsort).2
          (fun x hx => hns x (by simp [hx])) hInv hk hfuel h hcomp hdrest

theorem solveRecF_best : ∀ (fuel : Nat) (s : SState), solverInv s →
    zeros s.grid ≤ fuel → ∀ h, Completion s.grid h →
    (solveRecF fuel s).1 = true ∧
      (rmList (solveRecF fuel s).2.grid = rmList h ∨
        List.Lex (· < ·) (rmList (solveRecF fuel s).2.grid) (rmList h)) := by
  intro fuel
  induction fuel with
  | zero =>
      intro s hInv hz h hcomp
      unfold solveRecF
      cases hfz : firstZero s.grid with
      | none =>
          refine ⟨rfl, Or.inl (rmList_congr ?_)⟩
          intro j hj
          have hnz := firstZero_none hfz (j / 9) (j % 9) (by omega) (by omega)
          exact (hcomp.2.2.2 (j / 9) (by omega) (j % 9) (by omega) hnz).symm
      | some k =>
          obtain ⟨hk81, hcell, _⟩ := firstZero_some hfz
          exfalso
          have hz0 : zeros s.grid = 0 := by omega
          exact zeros_eq_zero_iff.mp hz0 k hk81 hcell
  | succ fuel ih =>
      intro s hInv hz h hcomp
      unfold solveRecF
      cases hfz : firstZero s.grid with
      | none =>
          refine ⟨rfl, Or.inl (rmList_congr ?_)⟩
          intro j hj
          have hnz := firstZero_none hfz (j / 9) (j % 9) (by omega) (by omega)
          exact (hcomp.2.2.2 (j / 9) (by omega) (j % 9) (by omega) hnz).symm
      | some k =>
          obtain ⟨hk81, hcell, _⟩ := firstZero_some hfz
          have hr : k / 9 < 9 := by omega
          have hc : k % 9 < 9 := by omega
          have hdig := hcomp.2.1 (k / 9) hr (k % 9) hc
          have hmem : cell h (k / 9) (k % 9) ∈ digits := by
            have h1 := hdig.1
            have h2 := hdig.2
            unfold digits
            interval_cases (cell h (k / 9) (k % 9)) <;> simp
          exact tryNums_best (fun t hwt => solveRecF_restWF fuel t hwt)
            (fun t hwt => solveRecF_mono fuel t hwt)
            (fun t ht hzt h2 hc2 => ih t ht hzt h2 hc2)
            digits s (by decide) (by decide) hInv hfz hz h hcomp hmem

theorem guard_iff (g : Grid) :
    (∀ k ∈ List.range 81, cell g (k / 9) (k % 9) ≤ 9) ↔ cellsLe9 g := by
  constructor
  · intro h r hr c hc
    have := h (9 * r + c) (List.mem_range.mpr (by omega))
    rw [show (9 * r + c) / 9 = r by omega, show (9 * r + c) % 9 = c by omega] at this
    exact this
  · intro h k hk
    have hk81 := List.mem_range.mp hk
    exact h (k / 9) (by omega) (k % 9) (by omega)

theorem solve_fast_cases {g : Grid} (h9 : cellsLe9 g) :
    solve_fast g = (match solveRecF 81 ⟨g, initTrackers g⟩ with
      | (true, s) => some (.ok (), s.grid)
      | (false, s) => some (.error .NoSolution, s.grid)) := by
  unfold solve_fast
  rw [if_pos ((guard_iff g).mpr h9)]

theorem solve_fast_none {g : Grid} (h9 : ¬cellsLe9 g) : solve_fast g = none := by
  unfold solve_fast
  rw [if_neg (fun h => h9 ((guard_iff g).mp h))]

theorem stateWF_init {g : Grid} (hw : gridWF g) (h9 : cellsLe9 g) :
    stateWF ⟨g, initTrackers g⟩ := by
  obtain ⟨hwr, hwc, hwb, _, _, _⟩ := initTrackers_exact h9
  exact ⟨hw, hwr, hwc, hwb⟩

/-! Counting digits in a completed unit. -/
theorem count_one_of_nodup_subset {L : List Nat} (hlen : L.length = 9) (hnd : L.Nodup)
    (hsub : ∀ x ∈ L, 1 ≤ x ∧ x ≤ 9) {d : Nat} (hd1 : 1 ≤ d) (hd9 : d ≤ 9) :
    L.count d = 1 := by
  have hsub2 : L ⊆ digits := by
    intro x hx
    have := hsub x hx
    unfold digits
    simp only [List.mem_cons, List.mem_singleton]
    omega
  have hsp := List.subperm_of_subset hnd hsub2
  have hperm : L.Perm digits := hsp.perm_of_length_le (by rw [hlen]; rfl)
  rw [hperm.count_eq]
  interval_cases d <;> rfl

theorem rowList_count {g : Grid} (hcon : consistent g) (hfull : full g) (h9 : cellsLe9 g)
    {u : Nat} (hu : u < 9) {d : Nat} (hd1 : 1 ≤ d) (hd9 : d ≤ 9) :
    (rowList g u).count d = 1 := by
  apply count_one_of_nodup_subset (by simp [rowList]) ?_ ?_ hd1 hd9
  · apply List.Nodup.map_on ?_ (List.nodup_range 9)
    intro x hx y hy hxy
    by_contra hne
    have hx9 := List.mem_range.mp hx
    have hy9 := List.mem_range.mp hy
    exact hcon u hu x hx9 u hu y hy9 (fun hp => hne hp.2) (Or.inl rfl)
      (hfull u hu x hx9) hxy
  · intro x hx
    obtain ⟨c, hc, hcx⟩ := List.mem_map.mp hx
    have hc9 := List.mem_range.mp hc
    subst hcx
    have h1 := hfull u hu c hc9
    have h2 := h9 u hu c hc9
    omega

theorem colList_count {g : Grid} (hcon : consistent g) (hfull : full g) (h9 : cellsLe9 g)
    {u : Nat} (hu : u < 9) {d : Nat} (hd1 : 1 ≤ d) (hd9 : d ≤ 9) :
    (colList g u).count d = 1 := by
  apply count_one_of_nodup_subset (by simp [colList]) ?_ ?_ hd1 hd9
  · apply List.Nodup.map_on ?_ (List.nodup_range 9)
    intro x hx y hy hxy
    by_contra hne
    have hx9 := List.mem_range.mp hx
    have hy9 := List.mem_range.mp hy
    exact hcon x hx9 u hu y hy9 u hu (fun hp => hne hp.1) (Or.inr (Or.inl rfl))
      (hfull x hx9 u hu) hxy
  · intro x hx
    obtain ⟨r, hr, hrx⟩ := List.mem_map.mp hx
    have hr9 := List.mem_range.mp hr
    subst hrx
    have h1 := hfull r hr9 u hu
    have h2 := h9 r hr9 u hu
    omega

theorem boxList_count {g : Grid} (hcon : consistent g) (hfull : full g) (h9 : cellsLe9 g)
    {u : Nat} (hu : u < 9) {d : Nat} (hd1 : 1 ≤ d) (hd9 : d ≤ 9) :
    (boxList g u).count d = 1 := by
  apply count_one_of_nodup_subset (by simp [boxList]) ?_ ?_ hd1 hd9
  · apply List.Nodup.map_on ?_ (List.nodup_range 9)
    intro x hx y hy hxy
    by_contra hne
    have hx9 := List.mem_range.mp hx
    have hy9 := List.mem_range.mp hy
    have hrx : u / 3 * 3 + x / 3 < 9 := by omega
    have hcx : u % 3 * 3 + x % 3 < 9 := by omega
    have hry : u / 3 * 3 + y / 3 < 9 := by omega
    have hcy : u % 3 * 3 + y % 3 < 9 := by omega
    have hbox : boxOf (u / 3 * 3 + x / 3) (u % 3 * 3 + x % 3) =
        boxOf (u / 3 * 3 + y / 3) (u % 3 * 3 + y % 3) := by
      unfold boxOf
      omega
    have hnep : ¬(u / 3 * 3 + x / 3 = u / 3 * 3 + y / 3 ∧
        u % 3 * 3 + x % 3 = u % 3 * 3 + y % 3) := by
      intro ⟨e1, e2⟩
      exact hne (by omega)
    exact hcon _ hrx _ hcx _ hry _ hcy hnep (Or.inr (Or.inr hbox))
      (hfull _ hrx _ hcx) hxy
  · intro x hx
    obtain ⟨i, hi, hix⟩ := List.mem_map.mp hx
    have hi9 := List.mem_range.mp hi
    subst hix
    have hri : u / 3 * 3 + i / 3 < 9 := by omega
    have hci : u % 3 * 3 + i % 3 < 9 := by omega
    have h1 := hfull _ hri _ hci
    have h2 := h9 _ hri _ hci
    omega

/-! Claim C1. -/
/-- C1 (amended): for every 9x9 grid whose cells are all in 0..=9, in which
no non-zero value is duplicated in any row, column or 3x3 box, and which
admits at least one valid completion, solve_fast returns Ok and
afterwards every row, every column and every 3x3 box of the grid
contains each digit 1..=9 exactly once. -/
theorem claim_C1 (g : Grid) (hw : gridWF g) (h9 : cellsLe9 g) (hcon : consistent g)
    (hsolv : ∃ h, Completion g h) :
    ∃ g2, solve_fast g = some (.ok (), g2) ∧
      ∀ u < 9, ∀ d : Nat, 1 ≤ d → d ≤ 9 →
        (rowList g2 u).count d = 1 ∧ (colList g2 u).count d = 1 ∧
          (boxList g2 u).count d = 1 := by
  obtain ⟨h, hcomp⟩ := hsolv
  have hInv := solverInv_init hw h9 hcon
  have hbest := solveRecF_best 81 ⟨g, initTrackers g⟩ hInv (zeros_le g) h hcomp
  rcases hres : solveRecF 81 ⟨g, initTrackers g⟩ with ⟨b, s2⟩
  rw [hres] at hbest
  cases b with
  | false => exact absurd hbest.1 (by simp)
  | true =>
      have hsound := solveRecF_sound 81 ⟨g, initTrackers g⟩ hInv (by rw [hres])
      rw [hres] at hsound
      refine ⟨s2.grid, by rw [solve_fast_cases h9, hres], ?_⟩
      intro u hu d hd1 hd9
      exact ⟨rowList_count hsound.1.2.2.1 hsound.2 hsound.1.2.1 hu hd1 hd9,
        colList_count hsound.1.2.2.1 hsound.2 hsound.1.2.1 hu hd1 hd9,
        boxList_count hsound.1.2.2.1 hsound.2 hsound.1.2.1 hu hd1 hd9⟩

/-- C1 counterexample: blockedGrid is structurally valid, has all cells in
0..=9 and no duplicated non-zero value in any unit, yet solve_fast
returns NoSolution (and leaves the grid unchanged), refuting the claim
that every such grid is solved successfully. -/
theorem claim_C1_cex :
    gridWF blockedGrid ∧ cellsLe9 blockedGrid ∧ consistent blockedGrid ∧
      solve_fast blockedGrid = some (.error .NoSolution, blockedGrid) :=
  ⟨by decide, by decide, by decide, by decide⟩

/-- C1 witness: the one-hole puzzle satisfies all hypotheses of claim_C1,
with solvedGrid as its completion. -/
theorem claim_C1_witness :
    (gridWF oneHole ∧ cellsLe9 oneHole ∧ consistent oneHole ∧
      Completion oneHole solvedGrid) ∧
      ∃ g2, solve_fast oneHole = some (.ok (), g2) ∧
        ∀ u < 9, ∀ d : Nat, 1 ≤ d → d ≤ 9 →
          (rowList g2 u).count d = 1 ∧ (colList g2 u).count d = 1 ∧
            (boxList g2 u).count d = 1 :=
  ⟨⟨by decide, by decide, by decide, by decide⟩,
    claim_C1 oneHole (by decide) (by decide) (by decide) ⟨solvedGrid, by decide⟩⟩

/-! Claim C3. -/
/-- C3 (amended): for every structurally valid grid with cells in 0..=9 that
violates the sudoku rules in its placed cells, solve_fast never produces
a rule-satisfying grid: whatever it returns, the resulting grid still
violates the rules (on failure it is the unchanged input, and on success
the pre-placed duplicate survives).  The original claim that such inputs
always yield NoSolution is refuted by claim_C3_cex. -/
theorem claim_C3 (g : Grid) (hw : gridWF g) (h9 : cellsLe9 g) (hbad : ¬consistent g) :
    ∀ res g2, solve_fast g = some (res, g2) → ¬consistent g2 := by
  intro res g2 hrun
  have hws := stateWF_init hw h9
  rw [solve_fast_cases h9] at hrun
  unfold consistent at hbad
  push_neg at hbad
  obtain ⟨r, hr, c, hc, r2, hr2, c2, hc2, hvio⟩ := hbad
  unfold consistentAt at hvio
  push_neg at hvio
  obtain ⟨hne, hunit, hnz, heqv⟩ := hvio
  rcases hres : solveRecF 81 ⟨g, initTrackers g⟩ with ⟨b, s2⟩
  rw [hres] at hrun
  cases b with
  | false =>
      have hrest := (solveRecF_restWF 81 ⟨g, initTrackers g⟩ hws).2
      rw [hres] at hrest
      have hs2 : s2 = ⟨g, initTrackers g⟩ := hrest rfl
      have hg2 : g2 = g := by
        injection hrun with h1
        injection h1 with h2 h3
        rw [← h3, hs2]
      rw [hg2]
      intro hcon2
      exact hcon2 r hr c hc r2 hr2 c2 hc2 (fun hp => hne hp.1 hp.2) hunit hnz heqv
  | true =>
      have hg2 : g2 = s2.grid := by
        injection hrun with h1
        injection h1 with h2 h3
        exact h3.symm
      have hnz2 : cell g r2 c2 ≠ 0 := by
        rw [← heqv]
        exact hnz
      have hm1 := solveRecF_mono 81 ⟨g, initTrackers g⟩ hws r c hr hc hnz
      have hm2 := solveRecF_mono 81 ⟨g, initTrackers g⟩ hws r2 c2 hr2 hc2 hnz2
      rw [hres] at hm1 hm2
      rw [hg2]
      intro hcon2
      exact hcon2 r hr c hc r2 hr2 c2 hc2 (fun hp => hne hp.1 hp.2) hunit (by rw [hm1]; exact hnz)
        (by rw [hm1, hm2]; exact heqv)

/-- C3 counterexample: the all-ones grid is structurally valid with cells in
0..=9 and two identical non-zero digits in the same row, yet solve_fast
returns Ok (with the grid unchanged and still invalid) instead of
Err(NoSolution). -/
theorem claim_C3_cex :
    gridWF allOnesGrid ∧ cellsLe9 allOnesGrid ∧ (¬consistent allOnesGrid) ∧
      solve_fast allOnesGrid = some (.ok (), allOnesGrid) :=
  ⟨by decide, by decide, by decide, by decide⟩

/-- C3 witness: the full rule-violating grid dupFullGrid satisfies the
hypotheses of claim_C3, and its solve_fast result grid is still
rule-violating. -/
theorem claim_C3_witness :
    (gridWF dupFullGrid ∧ cellsLe9 dupFullGrid ∧ ¬consistent dupFullGrid ∧
      solve_fast dupFullGrid = some (.ok (), dupFullGrid)) ∧ ¬consistent dupFullGrid :=
  ⟨⟨by decide, by decide, by decide, by decide⟩,
    claim_C3 dupFullGrid (by decide) (by decide) (by decide) (.ok ()) dupFullGrid
      (by decide)⟩

/-! Claim C9. -/
/-- C9: for every 9x9 input grid on which solve_fast returns (rather than
panicking on an out-of-range cell), no cell that was non-zero in the
input is changed, in the success case as well as the failure case; and
when it returns Err(NoSolution) the grid is left exactly equal to the
input: every trial placement made during the search has been rolled
back. -/
theorem claim_C9 (g : Grid) (hw : gridWF g) (res : Except SudokuError Unit) (g2 : Grid)
    (hrun : solve_fast g = some (res, g2)) :
    (∀ r < 9, ∀ c < 9, cell g r c ≠ 0 → cell g2 r c = cell g r c) ∧
      (res = .error .NoSolution → g2 = g) := by
  have h9 : cellsLe9 g := by
    by_contra h
    rw [solve_fast_none h] at hrun
    exact absurd hrun (by simp)
  have hws := stateWF_init hw h9
  rw [solve_fast_cases h9] at hrun
  rcases hres : solveRecF 81 ⟨g, initTrackers g⟩ with ⟨b, s2⟩
  rw [hres] at hrun
  cases b with
  | false =>
      have hrest := (solveRecF_restWF 81 ⟨g, initTrackers g⟩ hws).2
      rw [hres] at hrest
      have hs2 : s2 = ⟨g, initTrackers g⟩ := hrest rfl
      have hg2 : g2 = g := by
        injection hrun with h1
        injection h1 with h2 h3
        rw [← h3, hs2]
      constructor
      · intro r hr c hc _
        rw [hg2]
      · intro _
        exact hg2
  | true =>
      have hg2 : g2 = s2.grid := by
        injection hrun with h1
        injection h1 with h2 h3
        exact h3.symm
      have hok : res = .ok () := by
        injection hrun with h1
        injection h1 with h2 h3
        exact h2.symm
      constructor
      · intro r hr c hc hnz
        have hm := solveRecF_mono 81 ⟨g, initTrackers g⟩ hws r c hr hc hnz
        rw [hres] at hm
        rw [hg2]
        exact hm
      · intro habs
        rw [hok] at habs
        cases habs

/-- C9 witness: on the one-hole-at-the-end puzzle, solve_fast returns Ok
with solvedGrid, and claim_C9 yields the frame property for it. -/
theorem claim_C9_witness :
    (∀ r < 9, ∀ c < 9, cell oneHoleLast r c ≠ 0 →
      cell solvedGrid r c = cell oneHoleLast r c) ∧
      (Except.ok () = Except.error SudokuError.NoSolution → solvedGrid = oneHoleLast) :=
  claim_C9 oneHoleLast (by decide) (.ok ()) solvedGrid (by decide)

/-! Claim C7. -/
/-- C7: for every 9x9 solvable input grid, solve_fast succeeds, its result
is a valid completion of the input, and among all valid completions the
returned grid is the least in the lexicographic order of the row-major
value list: the deterministic search (first empty cell in row-major
order, digits tried in ascending order) returns exactly the first
solution under that fixed order, not an arbitrary one. -/
theorem claim_C7 (g : Grid) (hw : gridWF g) (hsolv : ∃ h, Completion g h) :
    ∃ g2, solve_fast g = some (.ok (), g2) ∧ Completion g g2 ∧
      ∀ h, Completion g h →
        rmList g2 = rmList h ∨ List.Lex (· < ·) (rmList g2) (rmList h) := by
  obtain ⟨h0, hcomp0⟩ := hsolv
  have h9 : cellsLe9 g := by
    intro r hr c hc
    by_cases hz : cell g r c = 0
    · omega
    · have he := hcomp0.2.2.2 r hr c hc hz
      have hd := hcomp0.2.1 r hr c hc
      omega
  have hcon : consistent g := by
    intro r hr c hc r2 hr2 c2 hc2 hne hunit hnz heq
    have hnz2 : cell g r2 c2 ≠ 0 := by
      rw [← heq]
      exact hnz
    have e1 := hcomp0.2.2.2 r hr c hc hnz
    have e2 := hcomp0.2.2.2 r2 hr2 c2 hc2 hnz2
    exact absurd (by rw [e1, e2]; exact heq)
      (hcomp0.2.2.1 r hr c hc r2 hr2 c2 hc2 hne hunit (by rw [e1]; exact hnz))
  have hInv := solverInv_init hw h9 hcon
  rcases hres : solveRecF 81 ⟨g, initTrackers g⟩ with ⟨b, s2⟩
  have hbest0 := solveRecF_best 81 ⟨g, initTrackers g⟩ hInv (zeros_le g) h0 hcomp0
  rw [hres] at hbest0
  cases b with
  | false => exact absurd hbest0.1 (by simp)
  | true =>
      have hsound := solveRecF_sound 81 ⟨g, initTrackers g⟩ hInv (by rw [hres])
      rw [hres] at hsound
      refine ⟨s2.grid, by rw [solve_fast_cases h9, hres], ⟨hsound.1.1.1, ?_,
        hsound.1.2.2.1, ?_⟩, ?_⟩
      · intro r hr c hc
        have h1 : cell s2.grid r c ≠ 0 := hsound.2 r hr c hc
        have h2 : cell s2.grid r c ≤ 9 := hsound.1.2.1 r hr c hc
        omega
      · intro r hr c hc hnz
        have hm := solveRecF_mono 81 ⟨g, initTrackers g⟩ hInv.1 r c hr hc hnz
        rw [hres] at hm
        exact hm
      · intro h hcomp
        have hb := solveRecF_best 81 ⟨g, initTrackers g⟩ hInv (zeros_le g) h hcomp
        rw [hres] at hb
        exact hb.2

/-- C7 witness: the one-hole puzzle with the last cell empty is solvable
with completion solvedGrid, and claim_C7 applies to it. -/
theorem claim_C7_witness :
    Completion oneHoleLast solvedGrid ∧
      ∃ g2, solve_fast oneHoleLast = some (.ok (), g2) ∧ Completion oneHoleLast g2 ∧
        ∀ h, Completion oneHoleLast h →
          rmList g2 = rmList h ∨ List.Lex (· < ·) (rmList g2) (rmList h) :=
  ⟨by decide, claim_C7 oneHoleLast (by decide) ⟨solvedGrid, by decide⟩⟩

/-! Parser lemmas. -/
theorem parseToken_err {t : List Char} {e : SudokuError} (h : parseToken t = .error e) :
    e = .InvalidNumber := by
  unfold parseToken at h
  by_cases hu : trimChars t = "_".data
  · rw [if_pos hu] at h
    cases h
  · rw [if_neg hu] at h
    cases hp : parseU8 (trimChars t) with
    | some v => rw [hp] at h; cases h
    | none => rw [hp] at h; cases h; rfl

theorem parseToken_le {t : List Char} {v : Nat} (h : parseToken t = .ok v) : v ≤ 255 := by
  unfold parseToken at h
  by_cases hu : trimChars t = "_".data
  · rw [if_pos hu] at h
    cases h
    omega
  · rw [if_neg hu] at h
    cases hp : parseU8 (trimChars t) with
    | some w =>
        rw [hp] at h
        cases h
        unfold parseU8 at hp
        by_cases hc : (match trimChars t with
            | '+' :: rest => rest
            | _ => trimChars t) ≠ [] ∧ (match trimChars t with
            | '+' :: rest => rest
            | _ => trimChars t).all Char.isDigit
        · rw [if_pos hc] at hp
          by_cases hv : (match trimChars t with
              | '+' :: rest => rest
              | _ => trimChars t).foldl (fun a c => 10 * a + digitVal c) 0 ≤ 255
          · rw [if_pos hv] at hp
            cases hp
            exact hv
          · rw [if_neg hv] at hp
            cases hp
        · rw [if_neg hc] at hp
          cases hp
    | none => rw [hp] at h; cases h

theorem collectTokens_err : ∀ {ts : List (List Char)} {cap : Nat} {e : SudokuError},
    collectTokens ts cap = some (.error e) → e = .InvalidNumber := by
  intro ts
  induction ts with
  | nil => intro cap e h; cases h
  | cons t rest ih =>
      intro cap e h
      unfold collectTokens at h
      cases hp : parseToken t with
      | error e2 =>
          rw [hp] at h
          cases h
          exact parseToken_err hp
      | ok v =>
          rw [hp] at h
          cases cap with
          | zero => cases h
          | succ cap2 =>
              dsimp only at h
              cases hrec : collectTokens rest cap2 with
              | none => rw [hrec] at h; cases h
              | some r =>
                  cases r with
                  | error e2 =>
                      rw [hrec] at h
                      cases h
                      exact ih hrec
                  | ok vs => rw [hrec] at h; cases h

theorem collectTokens_le : ∀ {ts : List (List Char)} {cap : Nat} {vs : List Nat},
    collectTokens ts cap = some (.ok vs) → ∀ v ∈ vs, v ≤ 255 := by
  intro ts
  induction ts with
  | nil =>
      intro cap vs h v hv
      unfold collectTokens at h
      cases h
      cases hv
  | cons t rest ih =>
      intro cap vs h v hv
      unfold collectTokens at h
      cases hp : parseToken t with
      | error e2 => rw [hp] at h; cases h
      | ok w =>
          rw [hp] at h
          cases cap with
          | zero => cases h
          | succ cap2 =>
              dsimp only at h
              cases hrec : collectTokens rest cap2 with
              | none => rw [hrec] at h; cases h
              | some r =>
                  cases r with
                  | error e2 => rw [hrec] at h; cases h
                  | ok ws =>
                      rw [hrec] at h
                      cases h
                      rcases List.mem_cons.mp hv with he | he
                      · subst he
                        exact parseToken_le hp
                      · exact ih hrec v he

theorem parseLine_ok {line : List Char} {row : List Nat}
    (h : parseLine line = some (.ok row)) :
    row.length = 9 ∧ ∀ v ∈ row, v ≤ 255 := by
  unfold parseLine at h
  cases hc : collectTokens (splitSep ',' line) 18 with
  | none => rw [hc] at h; cases h
  | some r =>
      cases r with
      | error e => rw [hc] at h; cases h
      | ok numbers =>
          rw [hc] at h
          dsimp only at h
          by_cases hlen : numbers.length ≠ 9
          · rw [if_pos hlen] at h
            cases h
          · rw [if_neg hlen] at h
            push_neg at hlen
            unfold tryInto9 at h
            rw [if_pos hlen] at h
            dsimp only at h
            cases h
            exact ⟨hlen, collectTokens_le hc⟩

theorem parseLine_no_invalid_format {line : List Char} {e : SudokuError}
    (h : parseLine line = some (.error e)) : e ≠ .InvalidFormat := by
  unfold parseLine at h
  cases hc : collectTokens (splitSep ',' line) 18 with
  | none => rw [hc] at h; cases h
  | some r =>
      cases r with
      | error e2 =>
          rw [hc] at h
          cases h
          rw [collectTokens_err hc]
          intro hcontra
          cases hcontra
      | ok numbers =>
          rw [hc] at h
          dsimp only at h
          by_cases hlen : numbers.length ≠ 9
          · rw [if_pos hlen] at h
            cases h
            intro hcontra
            cases hcontra
          · rw [if_neg hlen] at h
            push_neg at hlen
            unfold tryInto9 at h
            rw [if_pos hlen] at h
            dsimp only at h
            cases h

theorem getD_default_of_le {α : Type} : ∀ (l : List α) (i : Nat) (d : α),
    l.length ≤ i → l.getD i d = d
  | [], _, _, _ => rfl
  | _ :: _, 0, _, h => by simp at h
  | _ :: l, i + 1, d, h => getD_default_of_le l i d (by simpa using h)

theorem getD_le_of_all : ∀ (l : List Nat) (i : Nat), (∀ v ∈ l, v ≤ 255) →
    l.getD i 0 ≤ 255
  | [], i, _ => by cases i <;> simp [List.getD]
  | v :: l, 0, h => h v (by simp)
  | _ :: l, i + 1, h => getD_le_of_all l i (fun v hv => h v (by simp [hv]))

theorem parseLines_frame : ∀ {ls : List (List Char)} {g g2 : Grid} {i : Nat}
    {u : Except SudokuError Unit}, parseLines g i ls = some (g2, u) →
    ∀ r, r < i → ∀ c, cell g2 r c = cell g r c := by
  intro ls
  induction ls with
  | nil =>
      intro g g2 i u h r hr c
      unfold parseLines at h
      cases h
      rfl
  | cons line rest ih =>
      intro g g2 i u h r hr c
      unfold parseLines at h
      cases hp : parseLine line with
      | none => rw [hp] at h; cases h
      | some pr =>
          cases pr with
          | error e =>
              rw [hp] at h
              cases h
              rfl
          | ok row =>
              rw [hp] at h
              have := ih h r (by omega) c
              rw [this]
              unfold cell
              rw [getD_set_ne _ _ _ _ _ (by omega)]

theorem parseLines_ok_cells : ∀ {ls : List (List Char)} {g g2 : Grid} {i : Nat},
    parseLines g i ls = some (g2, .ok ()) →
    ∀ r c, c < 9 → i ≤ r → r < i + ls.length → cell g2 r c ≤ 255 := by
  intro ls
  induction ls with
  | nil =>
      intro g g2 i h r c _ h1 h2
      simp at h2
      omega
  | cons line rest ih =>
      intro g g2 i h r c hc h1 h2
      unfold parseLines at h
      cases hp : parseLine line with
      | none => rw [hp] at h; cases h
      | some pr =>
          cases pr with
          | error e => rw [hp] at h; cases h
          | ok row =>
              rw [hp] at h
              by_cases hri : r = i
              · subst hri
                have hfr := parseLines_frame h r (by omega) c
                rw [hfr]
                obtain ⟨hrow9, hrowle⟩ := parseLine_ok hp
                by_cases hlen : r < g.length
                · unfold cell
                  rw [getD_set_eq _ _ _ _ hlen]
                  exact getD_le_of_all row c hrowle
                · unfold cell
                  rw [List.set_eq_of_length_le (Nat.le_of_not_lt hlen),
                    getD_default_of_le g r [] (Nat.le_of_not_lt hlen)]
                  simp [List.getD]
              · exact ih h r c hc (by omega)
                  (by simp only [List.length_cons] at h2; omega)

theorem parseLines_no_invalid_format : ∀ {ls : List (List Char)} {g g2 : Grid} {i : Nat}
    {e : Except SudokuError Unit}, parseLines g i ls = some (g2, e) →
    e ≠ .error .InvalidFormat := by
  intro ls
  induction ls with
  | nil =>
      intro g g2 i e h
      unfold parseLines at h
      cases h
      intro hc
      cases hc
  | cons line rest ih =>
      intro g g2 i e h
      unfold parseLines at h
      cases hp : parseLine line with
      | none => rw [hp] at h; cases h
      | some pr =>
          cases pr with
          | error e2 =>
              rw [hp] at h
              cases h
              intro hc
              injection hc with hc2
              exact parseLine_no_invalid_format hp (by rw [hc2])
          | ok row =>
              rw [hp] at h
              exact ih h

/-! Claim C10. -/
/-- C10: parse never returns Err(InvalidFormat) for any input: the
structural-failure branch converting the token vector into a fixed
9-element row is only reached after the length-equals-9 check has
already succeeded, so it always succeeds. -/
theorem claim_C10 (g : Grid) (schema : List Char) (g2 : Grid)
    (e : Except SudokuError Unit) (h : parse g schema = some (g2, e)) :
    e ≠ .error .InvalidFormat := by
  simp only [parse] at h
  by_cases h1 : 9 < (splitSep ' ' schema).length
  · rw [if_pos h1] at h
    cases h
  · rw [if_neg h1] at h
    by_cases h2 : (splitSep ' ' schema).length ≠ 9
    · rw [if_pos h2] at h
      cases h
      intro hc
      cases hc
    · rw [if_neg h2] at h
      exact parseLines_no_invalid_format h

/-- C10 witness: on a concrete input, parse returns NotEnoughArguments, and
claim_C10 confirms the returned error is not InvalidFormat. -/
theorem claim_C10_witness :
    parse defaultGrid threeGroupsInput =
        some (defaultGrid, .error .NotEnoughArguments) ∧
      (Except.error SudokuError.NotEnoughArguments ≠
        (Except.error .InvalidFormat : Except SudokuError Unit)) :=
  ⟨by decide, claim_C10 defaultGrid threeGroupsInput defaultGrid _ (by decide)⟩

/-! Claim C4. -/
/-- C4 (amended): for every input text on which parse returns Ok, every cell
of the resulting grid holds a value in 0..=255 (the u8 range of the cell
type), not 0..=9 as claimed: any integer token up to 255 is accepted. -/
theorem claim_C4 (g0 : Grid) (schema : List Char) (g : Grid)
    (h : parse g0 schema = some (g, .ok ())) :
    ∀ r < 9, ∀ c < 9, cell g r c ≤ 255 := by
  intro r hr c hc
  simp only [parse] at h
  by_cases h1 : 9 < (splitSep ' ' schema).length
  · rw [if_pos h1] at h
    cases h
  · rw [if_neg h1] at h
    by_cases h2 : (splitSep ' ' schema).length ≠ 9
    · rw [if_pos h2] at h
      cases h
    · rw [if_neg h2] at h
      push_neg at h2
      exact parseLines_ok_cells h r c hc (by omega) (by omega)

/-- C4 counterexample: parse accepts the token 10 (u8 parsing), producing a
grid whose cell (0, 0) holds 10, outside the claimed range 0..=9. -/
theorem claim_C4_cex :
    parse defaultGrid schemaWithTen = some (gridWithTen, .ok ()) ∧
      ¬(cell gridWithTen 0 0 ≤ 9) :=
  ⟨by decide, by decide⟩

/-- C4 witness: the amended bound 255 holds on the same parsed grid. -/
theorem claim_C4_witness :
    parse defaultGrid schemaWithTen = some (gridWithTen, .ok ()) ∧
      ∀ r < 9, ∀ c < 9, cell gridWithTen r c ≤ 255 :=
  ⟨by decide, claim_C4 defaultGrid schemaWithTen gridWithTen (by decide)⟩

/-! Claim C5. -/
/-- C5 (amended): an input with fewer than nine space-separated row-groups
makes parse return Err(NotEnoughArguments) without touching the grid,
but an input with more than nine row-groups does not return an error:
the collect into the capacity-9 heapless vector panics (modelled as
none), refuting the claimed no-crash behavior for all counts. -/
theorem claim_C5 (g : Grid) (schema : List Char) :
    ((splitSep ' ' schema).length ≤ 9 → (splitSep ' ' schema).length ≠ 9 →
      parse g schema = some (g, .error .NotEnoughArguments)) ∧
      (9 < (splitSep ' ' schema).length → parse g schema = none) := by
  constructor
  · intro h1 h2
    simp only [parse]
    rw [if_neg (by omega), if_pos h2]
  · intro h1
    simp only [parse]
    rw [if_pos h1]

/-- C5 counterexample: ten row-groups make the heapless collect overflow
(a Rust panic, modelled as none) instead of returning
Err(NotEnoughArguments) as the claim states for every count other
than 9. -/
theorem claim_C5_cex :
    (splitSep ' ' tenGroupsInput).length = 10 ∧
      parse defaultGrid tenGroupsInput = none :=
  ⟨by decide, by decide⟩

/-- C5 witness: with eight row-groups, parse returns NotEnoughArguments. -/
theorem claim_C5_witness :
    parse defaultGrid eightGroupsInput =
      some (defaultGrid, .error .NotEnoughArguments) :=
  (claim_C5 defaultGrid eightGroupsInput).1 (by decide) (by decide)

theorem byteLen_append (a b : List Char) : byteLen (a ++ b) = byteLen a + byteLen b := by
  unfold byteLen
  rw [List.map_append, List.sum_append]

theorem digitChar_size {v : Nat} (h9 : v ≤ 9) : (Nat.digitChar v).utf8Size = 1 := by
  interval_cases v <;> rfl

theorem u8ToChars_digit {v : Nat} (h9 : v ≤ 9) : u8ToChars v = [Nat.digitChar v] := by
  unfold u8ToChars
  rw [if_pos (by omega)]

theorem byteLen_tdFull {v : Nat} (h1 : 1 ≤ v) (h9 : v ≤ 9) : byteLen (tdFull v) = 10 := by
  unfold tdFull
  rw [u8ToChars_digit h9, byteLen_append, byteLen_append]
  have h4 : byteLen "<td>".data = 4 := by decide
  have h5 : byteLen "</td>".data = 5 := by decide
  have hd : byteLen [Nat.digitChar v] = 1 := by
    unfold byteLen
    simp [digitChar_size h9]
  omega

theorem tdCell_eq {v : Nat} (h1 : 1 ≤ v) (h9 : v ≤ 9) : tdCell v = tdFull v := by
  unfold tdCell fitOrEmpty
  rw [show "<td>".data ++ u8ToChars v ++ "</td>".data = tdFull v from rfl]
  rw [if_pos (by rw [byteLen_tdFull h1 h9]; omega)]

theorem cellFold_eq : ∀ (row : List Nat) (a : List Char),
    (∀ v ∈ row, 1 ≤ v ∧ v ≤ 9) → byteLen a + 10 * row.length ≤ 1024 →
    row.foldl (fun a2 v => tryPush 1024 a2 (tdCell v)) a =
      a ++ (row.map tdFull).flatten := by
  intro row
  induction row with
  | nil =>
      intro a _ _
      simp
  | cons v rest ih =>
      intro a hv hlen
      have hv1 := (hv v (by simp)).1
      have hv9 := (hv v (by simp)).2
      have hstep : tryPush 1024 a (tdCell v) = a ++ tdFull v := by
        unfold tryPush
        rw [tdCell_eq hv1 hv9, if_pos]
        rw [byteLen_tdFull hv1 hv9]
        simp only [List.length_cons] at hlen
        omega
      simp only [List.foldl_cons, hstep]
      rw [ih (a ++ tdFull v) (fun x hx => hv x (by simp [hx]))
        (by rw [byteLen_append, byteLen_tdFull hv1 hv9]
            simp only [List.length_cons] at hlen
            omega)]
      simp [List.map_cons, List.flatten_cons, List.append_assoc]

theorem byteLen_tds {row : List Nat} (hv : ∀ v ∈ row, 1 ≤ v ∧ v ≤ 9) :
    byteLen ((row.map tdFull).flatten) = 10 * row.length := by
  induction row with
  | nil => rfl
  | cons v rest ih =>
      simp only [List.map_cons, List.flatten_cons, byteLen_append, List.length_cons]
      rw [byteLen_tdFull (hv v (by simp)).1 (hv v (by simp)).2,
        ih (fun x hx => hv x (by simp [hx]))]
      omega

theorem byteLen_trFull {row : List Nat} (h9 : row.length = 9)
    (hv : ∀ v ∈ row, 1 ≤ v ∧ v ≤ 9) : byteLen (trFull row) = 99 := by
  unfold trFull
  rw [byteLen_append, byteLen_append, byteLen_tds hv, h9]
  have h4 : byteLen "<tr>".data = 4 := by decide
  have h5 : byteLen "</tr>".data = 5 := by decide
  omega

theorem pushRow_eq {acc : List Char} {row : List Nat} (h9 : row.length = 9)
    (hv : ∀ v ∈ row, 1 ≤ v ∧ v ≤ 9) (hlen : byteLen acc + 99 ≤ 1024) :
    pushRow acc row = acc ++ trFull row := by
  unfold pushRow
  have h4 : byteLen "<tr>".data = 4 := by decide
  have h5 : byteLen "</tr>".data = 5 := by decide
  have hstep1 : tryPush 1024 acc "<tr>".data = acc ++ "<tr>".data := by
    unfold tryPush
    rw [if_pos (by omega)]
  rw [hstep1, cellFold_eq row (acc ++ "<tr>".data) hv
    (by rw [byteLen_append, h9]; omega)]
  unfold tryPush
  rw [if_pos]
  · unfold trFull
    simp [List.append_assoc]
  · rw [byteLen_append, byteLen_append, byteLen_tds hv, h9]
    omega

theorem rowFold_eq : ∀ (rows : List (List Nat)) (acc : List Char),
    (∀ row ∈ rows, row.length = 9 ∧ ∀ v ∈ row, 1 ≤ v ∧ v ≤ 9) →
    byteLen acc + 99 * rows.length ≤ 1024 →
    rows.foldl pushRow acc = acc ++ (rows.map trFull).flatten ∧
      byteLen (rows.foldl pushRow acc) = byteLen acc + 99 * rows.length := by
  intro rows
  induction rows with
  | nil =>
      intro acc _ _
      constructor
      · simp
      · simp
  | cons row rest ih =>
      intro acc hrows hlen
      have hr9 := (hrows row (by simp)).1
      have hrv := (hrows row (by simp)).2
      simp only [List.length_cons] at hlen
      have hstep : pushRow acc row = acc ++ trFull row :=
        pushRow_eq hr9 hrv (by omega)
      simp only [List.foldl_cons, hstep]
      obtain ⟨he, hl⟩ := ih (acc ++ trFull row)
        (fun r hr => hrows r (by simp [hr]))
        (by rw [byteLen_append, byteLen_trFull hr9 hrv]; omega)
      constructor
      · rw [he]
        simp [List.map_cons, List.flatten_cons, List.append_assoc]
      · rw [hl, byteLen_append, byteLen_trFull hr9 hrv]
        simp only [List.length_cons]
        omega

/-- The html_table output for any well-formed grid of digits 1..=9: the
header, banner and all nine table rows are written, but the closing
table tag and the footer overflow the 1024-byte capacity (the body
reaches 1021 bytes, and 1021 + 8 and 1021 + 14 both exceed 1024), so
both closing pushes are silently dropped by unwrap_or_default.  The
rendered success body therefore never ends with the footer. -/
theorem html_table_truncated {g : Grid} (hlen : g.length = 9)
    (hrows : ∀ row ∈ g, row.length = 9 ∧ ∀ v ∈ row, 1 ≤ v ∧ v ≤ 9) :
    html_table g = HTML_HEADER ++ tableOpen ++ tableBody g := by
  unfold html_table
  have hH : byteLen HTML_HEADER = 90 := by decide
  have hO : byteLen tableOpen = 40 := by decide
  have hstep1 : tryPush 1024 [] HTML_HEADER = HTML_HEADER := by
    unfold tryPush
    rw [if_pos (by rw [hH]; decide)]
    simp
  have hstep2 : tryPush 1024 HTML_HEADER tableOpen = HTML_HEADER ++ tableOpen := by
    unfold tryPush
    rw [if_pos (by rw [hH, hO]; omega)]
  rw [hstep1, hstep2]
  obtain ⟨he, hl⟩ := rowFold_eq g (HTML_HEADER ++ tableOpen) hrows
    (by rw [byteLen_append, hH, hO, hlen]; omega)
  rw [he]
  have hfinal : byteLen ((HTML_HEADER ++ tableOpen) ++ (g.map trFull).flatten) = 1021 := by
    rw [← he, hl, byteLen_append, hH, hO, hlen]
  have hT8 : byteLen "</table>".data = 8 := by decide
  have hF : byteLen HTML_FOOTER = 14 := by decide
  have hstep3 : tryPush 1024 ((HTML_HEADER ++ tableOpen) ++ (g.map trFull).flatten)
      "</table>".data = (HTML_HEADER ++ tableOpen) ++ (g.map trFull).flatten := by
    unfold tryPush
    rw [if_neg (by rw [hfinal, hT8]; omega)]
  rw [hstep3]
  unfold tryPush
  rw [if_neg (by rw [hfinal, hF]; omega)]
  unfold tableBody
  simp [List.append_assoc]

/-! Claim C2. -/
set_option maxRecDepth 100000 in
/-- C2 (refuted by the code): on the solved example grid, html_table emits
the header, the banner and all nine table rows (1021 bytes), but the
closing table tag and the footer markup are dropped because they would
exceed the 1024-byte capacity of the heapless result string; the body
is not closed by the fixed footer. -/
theorem claim_C2 :
    html_table solvedGrid = HTML_HEADER ++ tableOpen ++ tableBody solvedGrid ∧
      byteLen (html_table solvedGrid) = 1021 ∧
      ¬ HTML_FOOTER <:+ html_table solvedGrid := by
  refine ⟨html_table_truncated (by decide) (by decide), by decide, by decide⟩

/-! Claim C6. -/
theorem tryPush_le {cap : Nat} {s : List Char} (h : byteLen s ≤ cap) (t : List Char) :
    byteLen (tryPush cap s t) ≤ cap := by
  unfold tryPush
  by_cases hc : byteLen s + byteLen t ≤ cap
  · rw [if_pos hc, byteLen_append]
    omega
  · rw [if_neg hc]
    exact h

theorem byteLen_html_table_le (g : Grid) : byteLen (html_table g) ≤ 1024 := by
  unfold html_table
  apply tryPush_le (tryPush_le ?_ _) _
  have hfold : ∀ (rows : List (List Nat)) (acc : List Char), byteLen acc ≤ 1024 →
      byteLen (rows.foldl pushRow acc) ≤ 1024 := by
    intro rows
    induction rows with
    | nil => intro acc h; exact h
    | cons row rest ih =>
        intro acc h
        simp only [List.foldl_cons]
        apply ih
        unfold pushRow
        have h1 : byteLen (tryPush 1024 acc ("<tr>".data)) ≤ 1024 := tryPush_le h _
        have h2 : ∀ (cs : List Nat) (a : List Char), byteLen a ≤ 1024 →
            byteLen (cs.foldl (fun a2 v => tryPush 1024 a2 (tdCell v)) a) ≤ 1024 := by
          intro cs
          induction cs with
          | nil => intro a ha; exact ha
          | cons c2 cr ih2 =>
              intro a ha
              simp only [List.foldl_cons]
              exact ih2 _ (tryPush_le ha _)
        exact tryPush_le (h2 row _ h1) _
  apply hfold
  exact tryPush_le (tryPush_le (by decide) _) _

theorem byteLen_fitOrEmpty_le (cap : Nat) (s : List Char) :
    byteLen (fitOrEmpty cap s) ≤ cap := by
  unfold fitOrEmpty
  by_cases hc : byteLen s ≤ cap
  · rw [if_pos hc]
    exact hc
  · rw [if_neg hc]
    simp [byteLen]

theorem processing_le {f : FormValue} {text : List Char} (h : processing f = some text) :
    byteLen text ≤ 1024 := by
  unfold processing at h
  split at h
  · cases h
  · split at h
    · cases h
    · injection h with h2
      subst h2
      exact byteLen_html_table_le _
    · injection h with h2
      subst h2
      exact byteLen_fitOrEmpty_le 1024 _
  · injection h with h2
    subst h2
    exact byteLen_fitOrEmpty_le 1024 _

/-- C6: phase 1 (content_length) runs the parse-solve-render pipeline once,
stores the produced text in the cached message slot, and returns its
byte length; phase 2 (write_content) writes exactly the cached bytes to
the sink without invoking the pipeline, so the number of bytes written
equals the value phase 1 returned. -/
theorem claim_C6 (f : FormValue) (n : Nat) (f2 : FormValue)
    (h : content_length f = some (n, f2)) :
    (∃ text, processing f = some text ∧ f2.message = text ∧ n = byteLen text) ∧
      ∀ sink, write_content f2 sink = sink ++ f2.message ∧
        byteLen (write_content f2 sink) = byteLen sink + n := by
  unfold content_length generate_html at h
  cases hp : processing f with
  | none => rw [hp] at h; cases h
  | some text =>
      rw [hp] at h
      dsimp only at h
      cases h
      have hmsg : tryPush 1024 [] text = text := by
        unfold tryPush
        rw [if_pos]
        · simp
        · have hle := processing_le hp
          have h0 : byteLen ([] : List Char) = 0 := rfl
          omega
      constructor
      · exact ⟨text, rfl, hmsg, rfl⟩
      · intro sink
        constructor
        · rfl
        · unfold write_content
          rw [byteLen_append, hmsg]

set_option maxRecDepth 100000 in
/-- C6 witness: on the concrete submission wform, phase 1 returns 149 and
caches the error page, and claim_C6 gives the phase-2 properties. -/
theorem claim_C6_witness :
    (∃ text, processing wform = some text ∧ wformAfter.message = text ∧
      149 = byteLen text) ∧
      ∀ sink, write_content wformAfter sink = sink ++ wformAfter.message ∧
        byteLen (write_content wformAfter sink) = byteLen sink + 149 :=
  claim_C6 wform 149 wformAfter (by decide)

/-! Claim C8. -/
/-- C8: whenever the guard scope exits, normally or abnormally, and the
device lock is free for this single-owner run, the device ends
disabled: the guard enabled it on entry and its destructor disables it
on exit regardless of how the wrapped render call terminated. -/
theorem claim_C8 (d : Sm2) (hfree : d.locked = false) (renderAborts : Bool) :
    (guardScope d renderAborts).enabled = false ∧
      (guardScope d renderAborts).locked = false := by
  unfold guardScope sm2GuardNew sm2GuardDrop
  simp [hfree]

/-- C8 witness: a concrete run starting with the device enabled and the lock
free, and the wrapped call terminating abnormally, ends disabled. -/
theorem claim_C8_witness :
    (guardScope ⟨true, false⟩ true).enabled = false ∧
      (guardScope ⟨true, false⟩ true).locked = false :=
  claim_C8 ⟨true, false⟩ rfl true
